import Mathlib

/-!
Verification development for the Batch-Toolchain debugger.

This file gives a shallow embedding, in Lean 4, of the core of a DAP
(Debug Adapter Protocol) debugger for Windows batch scripts, and proves
properties of that embedding.  The embedding follows the Rust sources:

  * `src/parser/commands.rs`   — composite split, redirections, `IF`/`FOR` parsing
  * `src/debugger/breakpoints.rs` — the breakpoint table
  * `src/debugger/context.rs`  — the debug context (variables, frames,
    breakpoints, condition evaluation, `FOR` expansion, `PUSHD`/`POPD`/`SHIFT`)
  * `src/debugger/mod.rs`      — frames and `leave_context`
  * `src/executor/dap_runner.rs` — one iteration of the execution engine loop
  * `src/dap/server.rs`        — the `setBreakpoints` and step-request handlers

Modelling conventions:

  * Rust `HashMap<String, String>` is modelled as an association list
    (`VarMap`); `insert` erases the key first and conses the new binding,
    which is extensionally the map update; `extend` folds `insert`.
  * Rust `Vec` (the call stack, the directory stack) is a Lean `List` in the
    same order: `push` appends at the end, `pop`/`last` act on the end.
  * Rust `String` is a Lean `String`; index arithmetic in the source is byte
    based while the helpers below are character based, which coincides on
    ASCII input (all syntax the parsers recognise is ASCII).  Rust
    `to_uppercase`/`to_lowercase` agree with the ASCII-only Lean
    `Char.toUpper`/`Char.toLower` on ASCII text.
  * Rust `i32` is modelled as `Int`; `parse_i32` checks the `i32` range as
    Rust's `str::parse::<i32>` does.  The `FOR /L` counter is kept inside the
    `i32` range by wrapping the increment two's-complement (`wrap32`), the
    value a release build computes on overflow; the loops are fuelled with a
    completion flag because the source loop does not terminate when its
    wrapped guard can never fail.
  * The shell adapter (`CmdSession`, whose `session.rs` is external to the
    sources in view) is modelled from the spec as a function
    `run(command) → (captured_text, exit_code)`, with `none` standing for an
    adapter I/O failure (`ShellError`).
  * Process-level state (`env::current_dir`) is threaded explicitly as a
    `cwd : String` next to the context; filesystem failures of
    `set_current_dir` are not modelled (assumed to succeed).
-/

namespace BatchDbg

/-! ## String helpers (character-based counterparts of the Rust `str` API) -/

/-- ASCII-insensitive character upper-casing, as in Rust for ASCII text. -/
def charUp (c : Char) : Char := c.toUpper

/-- ASCII-insensitive character lower-casing, as in Rust for ASCII text. -/
def charLow (c : Char) : Char := c.toLower

/-- Counterpart of Rust `str::to_uppercase` (ASCII fragment). -/
def sUpper (s : String) : String := String.mk (s.data.map charUp)

/-- Counterpart of Rust `str::to_lowercase` (ASCII fragment). -/
def sLower (s : String) : String := String.mk (s.data.map charLow)

/-- Counterpart of Rust `str::starts_with` on a string pattern. -/
def sStarts (s p : String) : Bool := p.data.isPrefixOf s.data

/-- Counterpart of Rust `str::ends_with` on a string pattern. -/
def sEnds (s p : String) : Bool := p.data.isSuffixOf s.data

/-- Counterpart of Rust `str::starts_with` on a character pattern. -/
def sStartsC (s : String) (c : Char) : Bool :=
  match s.data with
  | [] => false
  | d :: _ => d == c

/-- Counterpart of Rust `str::ends_with` on a character pattern. -/
def sEndsC (s : String) (c : Char) : Bool :=
  match s.data.getLast? with
  | none => false
  | some d => d == c

/-- Character count; on ASCII input this equals Rust `str::len`. -/
def sLen (s : String) : Nat := s.data.length

/-- Drop the first `n` characters (Rust slice `s[n..]` at an ASCII position). -/
def sDrop (s : String) (n : Nat) : String := String.mk (s.data.drop n)

/-- Take the first `n` characters (Rust slice `s[..n]` at an ASCII position). -/
def sTake (s : String) (n : Nat) : String := String.mk (s.data.take n)

/-- Characters from position `a` (inclusive) to `b` (exclusive), Rust `s[a..b]`. -/
def sSlice (s : String) (a b : Nat) : String := String.mk ((s.data.take b).drop a)

/-- Counterpart of Rust `str::trim_start`. -/
def sTrimL (s : String) : String := String.mk (s.data.dropWhile Char.isWhitespace)

/-- Counterpart of Rust `str::trim_end`. -/
def sTrimR (s : String) : String :=
  String.mk (s.data.reverse.dropWhile Char.isWhitespace).reverse

/-- Counterpart of Rust `str::trim`. -/
def sTrim (s : String) : String := sTrimR (sTrimL s)

/-- Counterpart of Rust `str::is_empty`. -/
def sEmpty (s : String) : Bool := s.data.isEmpty

/-- Counterpart of Rust `str::contains` on a character pattern. -/
def sHasC (s : String) (c : Char) : Bool := s.data.contains c

/-- First index of the character `c`, counterpart of Rust `str::find(char)`. -/
def sFindC (s : String) (c : Char) : Option Nat := s.data.indexOf? c

/-- First index at which the pattern `p` occurs, Rust `str::find(&str)`. -/
def listFindSub (p : List Char) : List Char → Option Nat
  | [] => if p.isEmpty then some 0 else none
  | c :: cs =>
      if p.isPrefixOf (c :: cs) then some 0
      else (listFindSub p cs).map (· + 1)

/-- First index at which the pattern `p` occurs, Rust `str::find(&str)`. -/
def sFindS (s p : String) : Option Nat := listFindSub p.data s.data

/-- Counterpart of Rust `str::trim_start_matches(char)`: strip every leading `c`. -/
def sTrimStartC (s : String) (c : Char) : String :=
  String.mk (s.data.dropWhile (· == c))

/-- Helper for `sWords`: accumulate the current (reversed) word while
scanning; structurally recursive so that it evaluates inside the kernel. -/
def wordsAux : List Char → List Char → List (List Char)
  | cur, [] => if cur.isEmpty then [] else [cur.reverse]
  | cur, c :: cs =>
      if c.isWhitespace then
        if cur.isEmpty then wordsAux [] cs else cur.reverse :: wordsAux [] cs
      else wordsAux (c :: cur) cs

/-- Counterpart of Rust `str::split_whitespace`. -/
def sWords (s : String) : List String := (wordsAux [] s.data).map String.mk

/-- Counterpart of Rust `str::split(char)` (does not drop empty pieces). -/
def listSplitC (c : Char) : List Char → List (List Char)
  | [] => [[]]
  | d :: ds =>
      if d == c then [] :: listSplitC c ds
      else
        match listSplitC c ds with
        | [] => [[d]]
        | p :: ps => (d :: p) :: ps

/-- Counterpart of Rust `str::split(char)`. -/
def sSplitC (s : String) (c : Char) : List String := (listSplitC c s.data).map String.mk

/-- Counterpart of Rust `str::eq_ignore_ascii_case`. -/
def eqIgnoreCase (a b : String) : Bool := a.data.map charLow == b.data.map charLow

/-- Drop the last character, used for Rust `String::pop`. -/
def sDropLast (s : String) : String := String.mk s.data.dropLast

/-- Byte-wise (here character-wise) lexicographic strict order on strings, as
Rust derives `<` for `String`; the two agree on ASCII text. -/
def listLexLt : List Char → List Char → Bool
  | [], [] => false
  | [], _ :: _ => true
  | _ :: _, [] => false
  | a :: as, b :: bs =>
      if a < b then true
      else if b < a then false
      else listLexLt as bs

/-- Strict lexicographic order, Rust `String` `<`. -/
def sLt (a b : String) : Bool := listLexLt a.data b.data

/-- Non-strict lexicographic order, Rust `String` `<=`. -/
def sLe (a b : String) : Bool := sLt a b || a == b

/-- Concatenation of words separated by single blanks, for
`normalize_whitespace` (`src/parser/commands.rs`): Rust
`line.split_whitespace().collect::<Vec<_>>().join(" ")`. -/
def normalize_whitespace (line : String) : String :=
  String.intercalate " " (sWords line)

/-- Replace every occurrence of the (non-empty) pattern, left to right and
without overlap: Rust `str::replace`.  Structural recursion on a fuel
argument (initialised to the input length, which always suffices since every
step consumes at least one character).  For the empty pattern the source
behaviour differs; no caller passes an empty pattern. -/
def replaceFuel (p r : List Char) : Nat → List Char → List Char
  | _, [] => []
  | 0, l => l
  | Nat.succ fuel, c :: cs =>
      if p.isPrefixOf (c :: cs) && !p.isEmpty then
        r ++ replaceFuel p r fuel ((c :: cs).drop p.length)
      else
        c :: replaceFuel p r fuel cs

/-- Counterpart of Rust `str::replace`. -/
def sReplace (s pat rep : String) : String :=
  String.mk (replaceFuel pat.data rep.data s.data.length s.data)

/-- Integer parsing with the `i32` range check: Rust `str::parse::<i32>`
(accepts an optional leading `+` or `-` followed by one or more ASCII
digits, and fails on overflow). -/
def parseDigits : List Char → Option Nat
  | [] => none
  | cs =>
      if cs.all Char.isDigit then
        some (cs.foldl (fun n c => n * 10 + (c.toNat - 48)) 0)
      else none

/-- Rust `str::parse::<i32>` on a string. -/
def parse_i32 (s : String) : Option Int :=
  let (neg, ds) :=
    match s.data with
    | '-' :: rest => (true, rest)
    | '+' :: rest => (false, rest)
    | rest => (false, rest)
  match parseDigits ds with
  | none => none
  | some n =>
      let v : Int := if neg then -(n : Int) else (n : Int)
      if -(2 ^ 31) ≤ v ∧ v ≤ 2 ^ 31 - 1 then some v else none

/-- Rust `str::parse::<usize>` (optional `+`, digits; the engine's `SHIFT`
argument never approaches the `usize` range, so no upper bound is modelled). -/
def parse_usize (s : String) : Option Nat :=
  let ds := match s.data with
            | '+' :: rest => rest
            | rest => rest
  parseDigits ds

/-! ## Variable maps (Rust `HashMap<String, String>`) -/

/-- Association-list model of `HashMap<String, String>`.  Keys are unique by
construction (`mapInsert` erases the key first); lookup takes the first
binding. -/
abbrev VarMap := List (String × String)

/-- Lookup, Rust `HashMap::get`. -/
def mapGet (m : VarMap) (k : String) : Option String :=
  match m.find? (fun kv => kv.1 == k) with
  | some kv => some kv.2
  | none => none

/-- Insert-or-replace, Rust `HashMap::insert` (extensionally). -/
def mapInsert (m : VarMap) (k v : String) : VarMap :=
  (k, v) :: m.filter (fun kv => kv.1 != k)

/-- Membership, Rust `HashMap::contains_key`. -/
def mapHas (m : VarMap) (k : String) : Bool := (mapGet m k).isSome

/-- Overlay, Rust `HashMap::extend` (later entries of `other` win). -/
def mapExtend (base other : VarMap) : VarMap :=
  other.foldl (fun acc kv => mapInsert acc kv.1 kv.2) base

/-! ## Core data model (`src/debugger/mod.rs`, `breakpoints.rs`, `stepping.rs`) -/

/-- Run mode, from `src/debugger/stepping.rs`. -/
inductive RunMode where
  | Continue
  | StepOver
  | StepInto
  | StepOut
deriving DecidableEq, Repr

/-- Call frame, from `src/debugger/mod.rs` (`Frame`). -/
structure Frame where
  return_pc : Nat
  args : Option (List String)
  locals : VarMap
  has_setlocal : Bool
deriving DecidableEq, Repr

/-- Constructor `Frame::new`. -/
def Frame.new (return_pc : Nat) (args : Option (List String)) : Frame :=
  { return_pc := return_pc, args := args, locals := [], has_setlocal := false }

/-- Breakpoint record, from `src/debugger/breakpoints.rs`. -/
structure Breakpoint where
  line : Nat
  condition : Option String
  hit_count : Nat
deriving DecidableEq, Repr

/-- Breakpoint table: `Breakpoints.points : HashMap<usize, Breakpoint>`,
modelled as an association list keyed by the logical line. -/
abbrev BpTable := List (Nat × Breakpoint)

/-- Table lookup, `Breakpoints::get`. -/
def bpGet (t : BpTable) (line : Nat) : Option Breakpoint :=
  match t.find? (fun e => e.1 == line) with
  | some e => some e.2
  | none => none

/-- Table membership, `Breakpoints::contains`. -/
def bpContains (t : BpTable) (line : Nat) : Bool := (bpGet t line).isSome

/-- Insert-or-replace into the table (`HashMap::insert`). -/
def bpInsert (t : BpTable) (line : Nat) (bp : Breakpoint) : BpTable :=
  (line, bp) :: t.filter (fun e => e.1 != line)

/-- In-place update of one entry, `Breakpoints::get_mut` followed by a write. -/
def bpModify (t : BpTable) (line : Nat) (f : Breakpoint → Breakpoint) : BpTable :=
  t.map (fun e => if e.1 == line then (e.1, f e.2) else e)

/-- `Breakpoints::add_with_condition` (a fresh record with hit count 0). -/
def bpAddWithCondition (t : BpTable) (line : Nat) (cond : Option String) : BpTable :=
  bpInsert t line { line := line, condition := cond, hit_count := 0 }

/-- Modelled from the spec: the shell adapter (`CmdSession`, whose
`session.rs` is outside the sources in view) exposes
`run(command) → (captured_text, exit_code)`; `none` models an adapter I/O
failure (`ShellError`).  The adapter's internal state (the persistent `cmd`
child) is not observed by any property below, so `run` is a pure function. -/
abbrev Shell := String → Option (String × Int)

/-- Debug context, from `src/debugger/context.rs` (`DebugContext`).  The
`session` field is replaced by passing a `Shell` to each operation that runs
a command. -/
structure DebugContext where
  vars : VarMap
  call_stack : List Frame
  last_exit_code : Int
  breakpoints : BpTable
  mode : RunMode
  step_out_target_depth : Nat
  continue_requested : Bool
  current_line : Option Nat
  data_breakpoints : VarMap
  data_breakpoint_hit : Option (String × String × String)
  directory_stack : List String
deriving DecidableEq, Repr

/-- Constructor `DebugContext::new`. -/
def DebugContext.new : DebugContext :=
  { vars := []
    call_stack := []
    last_exit_code := 0
    breakpoints := []
    mode := RunMode.Continue
    step_out_target_depth := 0
    continue_requested := false
    current_line := none
    data_breakpoints := []
    data_breakpoint_hit := none
    directory_stack := [] }

/-- Top frame of the call stack (`call_stack.last()` — a Rust `Vec` grows at
the end, so the most recent frame is the last element). -/
def topFrame (ctx : DebugContext) : Option Frame := ctx.call_stack.getLast?

/-- Replace the top frame in place (`call_stack.last_mut()` + mutation). -/
def modifyTop (f : Frame → Frame) : List Frame → List Frame
  | [] => []
  | [fr] => [f fr]
  | fr :: rest => fr :: modifyTop f rest

/-- `leave_context` from `src/debugger/mod.rs`: pop one frame (the last
element of the `Vec`) and return its `return_pc`. -/
def leave_context (stack : List Frame) : Option (Nat × List Frame) :=
  match stack.getLast? with
  | some fr => some (fr.return_pc, stack.dropLast)
  | none => none

/-! ## Debug context operations (`src/debugger/context.rs`) -/

/-- `DebugContext::set_mode`. -/
def set_mode (ctx : DebugContext) (mode : RunMode) : DebugContext :=
  { ctx with mode := mode }

/-- `DebugContext::handle_setlocal`: mark the top frame's scope active
(no-op without a frame). -/
def handle_setlocal (ctx : DebugContext) : DebugContext :=
  match ctx.call_stack.getLast? with
  | some _ =>
      { ctx with call_stack := modifyTop (fun fr => { fr with has_setlocal := true }) ctx.call_stack }
  | none => ctx

/-- `DebugContext::handle_endlocal`: clear the top frame's locals and
deactivate its scope (no-op without a frame or an active scope). -/
def handle_endlocal (ctx : DebugContext) : DebugContext :=
  match ctx.call_stack.getLast? with
  | some fr =>
      if fr.has_setlocal then
        { ctx with call_stack :=
            modifyTop (fun f => { f with locals := [], has_setlocal := false }) ctx.call_stack }
      else ctx
  | none => ctx

/-- `DebugContext::get_visible_variables`: the globals overlaid with the top
frame's locals when its `SETLOCAL` scope is active. -/
def get_visible_variables (ctx : DebugContext) : VarMap :=
  match ctx.call_stack.getLast? with
  | some fr => if fr.has_setlocal then mapExtend ctx.vars fr.locals else ctx.vars
  | none => ctx.vars

/-- Shared store pattern of `context.rs` (`track_set_command`,
`set_loop_variable`, …): write to the top frame's locals when `SETLOCAL` is
active there, otherwise to the global map. -/
def storeScoped (ctx : DebugContext) (k v : String) : DebugContext :=
  match ctx.call_stack.getLast? with
  | some fr =>
      if fr.has_setlocal then
        { ctx with call_stack :=
            modifyTop (fun f => { f with locals := mapInsert f.locals k v }) ctx.call_stack }
      else { ctx with vars := mapInsert ctx.vars k v }
  | none => { ctx with vars := mapInsert ctx.vars k v }

/-- Classification of a raw `SET` line, factored out of
`DebugContext::track_set_command`: which of the three forms applies and what
key/value it carries.  `skip` covers every early `return` of the source. -/
inductive SetForm where
  | skip
  | arith (key : String)
  | prompt (key : String)
  | plain (key value : String)
deriving DecidableEq, Repr

/-- Parsing part of `DebugContext::track_set_command`, kept step-for-step
with the source: trim, check the `SET ` prefix, dispatch on `/A` and `/P`,
otherwise strip optional surrounding quotes and split at the first `=`. -/
def trackSetClassify (line : String) : SetForm :=
  let l := sTrimL line
  if !(sStarts (sUpper l) "SET ") then SetForm.skip
  else
    let rest := sTrimL (sDrop l 3)
    if sStarts (sUpper rest) "/A" then
      let expr := sTrimL (sDrop rest 2)
      match sFindC expr '=' with
      | some eq_pos =>
          let key0 := sTrim (sTake expr eq_pos)
          let key :=
            if sEndsC key0 '+' || sEndsC key0 '-' || sEndsC key0 '*' || sEndsC key0 '/' ||
               sEndsC key0 '%' || sEndsC key0 '&' || sEndsC key0 '|' || sEndsC key0 '^' then
              sTrim (sDropLast key0)
            else key0
          SetForm.arith key
      | none => SetForm.skip
    else if sStarts (sUpper rest) "/P" then
      let expr := sTrimL (sDrop rest 2)
      match sFindC expr '=' with
      | some eq_pos =>
          let key := sTrim (sTake expr eq_pos)
          if sEmpty key then SetForm.skip else SetForm.prompt key
      | none => SetForm.skip
    else
      let rest := sTrim rest
      let rest :=
        if sStartsC rest '"' && sEndsC rest '"' && sLen rest ≥ 2 then
          sSlice rest 1 (sLen rest - 1)
        else rest
      match sFindC rest '=' with
      | some eq_pos =>
          let key := sTrim (sTake rest eq_pos)
          let val := sTrim (sDrop rest (eq_pos + 1))
          if !(sEmpty key) && !(sHasC key '+') && !(sHasC key '-') &&
             !(sHasC key '*') && !(sHasC key '/') then
            SetForm.plain key val
          else SetForm.skip
      | none => SetForm.skip

/-- `DebugContext::track_set_command`: mirror the effect of a `SET` /
`SET /A` / `SET /P` line into the variable tables.  `SET /A` re-runs the raw
line through the shell and records its trimmed output (also updating
`last_exit_code`); `SET /P` re-queries the shell with `echo %name%`; shell
failures are silently ignored, exactly as the source's `if let Ok(..)`. -/
def track_set_command (shell : Shell) (ctx : DebugContext) (line : String) : DebugContext :=
  match trackSetClassify line with
  | SetForm.skip => ctx
  | SetForm.plain key val => storeScoped ctx key val
  | SetForm.arith key =>
      match shell line with
      | some (output, exit_code) =>
          let ctx := { ctx with last_exit_code := exit_code }
          let val := sTrim output
          if !(sEmpty key) then storeScoped ctx key val else ctx
      | none => ctx
  | SetForm.prompt key =>
      match shell ("echo %" ++ key ++ "%") with
      | some (output, _) => storeScoped ctx key (sTrim output)
      | none => ctx

/-- `DebugContext::add_breakpoint_with_condition`. -/
def add_breakpoint_with_condition (ctx : DebugContext) (logical_line : Nat)
    (condition : Option String) : DebugContext :=
  { ctx with breakpoints := bpAddWithCondition ctx.breakpoints logical_line condition }

/-- `DebugContext::add_breakpoint`. -/
def add_breakpoint (ctx : DebugContext) (logical_line : Nat) : DebugContext :=
  add_breakpoint_with_condition ctx logical_line none

/-- `DebugContext::add_data_breakpoint`: record the variable's current
visible value (empty when undefined) as the baseline. -/
def add_data_breakpoint (ctx : DebugContext) (variable_name : String) : DebugContext :=
  let current := (mapGet (get_visible_variables ctx) variable_name).getD ""
  { ctx with data_breakpoints := mapInsert ctx.data_breakpoints variable_name current }

/-- `DebugContext::remove_data_breakpoint`. -/
def remove_data_breakpoint (ctx : DebugContext) (variable_name : String) : DebugContext :=
  { ctx with data_breakpoints := ctx.data_breakpoints.filter (fun kv => kv.1 != variable_name) }

/-- Scan of `DebugContext::check_data_breakpoints`: first tracked variable
whose current visible value differs from the stored baseline. -/
def firstDataHit (visible : VarMap) : VarMap → Option (String × String × String)
  | [] => none
  | (name, old) :: rest =>
      let newv := (mapGet visible name).getD ""
      if newv != old then some (name, old, newv) else firstDataHit visible rest

/-- `DebugContext::check_data_breakpoints`: returns whether a data
breakpoint fired and records the hit triple. -/
def check_data_breakpoints (ctx : DebugContext) : Bool × DebugContext :=
  let ctx := { ctx with data_breakpoint_hit := none }
  match firstDataHit (get_visible_variables ctx) ctx.data_breakpoints with
  | some hit => (true, { ctx with data_breakpoint_hit := some hit })
  | none => (false, ctx)

/-- `DebugContext::update_data_breakpoints`: refresh every stored baseline
to the current visible value. -/
def update_data_breakpoints (ctx : DebugContext) : DebugContext :=
  let visible := get_visible_variables ctx
  { ctx with data_breakpoints :=
      ctx.data_breakpoints.map (fun kv => (kv.1, (mapGet visible kv.1).getD "")) }

/-- `DebugContext::evaluate_expression`: `ERRORLEVEL` shortcut, then simple
scope-aware lookups, then the `echo` fallback through the shell (which also
updates `last_exit_code`).  The `Except` error models the propagated
`io::Error` of a failed shell run. -/
def evaluate_expression (shell : Shell) (ctx : DebugContext) (expression : String) :
    DebugContext × Except Unit String :=
  let expr := sTrim expression
  if eqIgnoreCase expr "ERRORLEVEL" || expr == "%ERRORLEVEL%" then
    (ctx, Except.ok (toString ctx.last_exit_code))
  else
    let fallback : DebugContext → DebugContext × Except Unit String := fun ctx =>
      match shell ("echo " ++ expr) with
      | some (output, exit_code) =>
          ({ ctx with last_exit_code := exit_code }, Except.ok (sTrim output))
      | none => (ctx, Except.error ())
    if sStartsC expr '%' && sEndsC expr '%' && sLen expr > 2 then
      let var_name := sSlice expr 1 (sLen expr - 1)
      if !(sHasC var_name ':') then
        match mapGet (get_visible_variables ctx) var_name with
        | some value => (ctx, Except.ok value)
        | none => fallback ctx
      else fallback ctx
    else if !(sHasC expr ' ') && !(sHasC expr '=') && !(sHasC expr '&') && !(sHasC expr ':') then
      match mapGet (get_visible_variables ctx) expr with
      | some value => (ctx, Except.ok value)
      | none => fallback ctx
    else fallback ctx

/-- Truthiness test of a breakpoint-condition result, inlined in
`DebugContext::should_stop_at`: trimmed result non-empty, not `"0"`, and not
`"false"` ignoring ASCII case. -/
def truthyStr (result : String) : Bool :=
  let result_trimmed := sTrim result
  !(sEmpty result_trimmed) && result_trimmed != "0" &&
    !(eqIgnoreCase result_trimmed "false")

/-- Bump the hit counter of the breakpoint at `pc` (the `get_mut` block of
`should_stop_at`). -/
def bumpHit (ctx : DebugContext) (pc : Nat) : DebugContext :=
  { ctx with breakpoints :=
      bpModify ctx.breakpoints pc (fun bp => { bp with hit_count := bp.hit_count + 1 }) }

/-- `DebugContext::should_stop_at`.  In `Continue` mode: no breakpoint means
no stop; otherwise the hit counter is bumped, an unconditional breakpoint
stops, a conditional one stops iff its condition evaluates truthy, and an
evaluation error stops fail-safe.  Step modes are as in the source. -/
def should_stop_at (shell : Shell) (ctx : DebugContext) (pc : Nat) : Bool × DebugContext :=
  match ctx.mode with
  | RunMode.Continue =>
      if !(bpContains ctx.breakpoints pc) then (false, ctx)
      else
        let condition_opt := (bpGet ctx.breakpoints pc).bind (fun bp => bp.condition)
        let ctx := bumpHit ctx pc
        match condition_opt with
        | some condition =>
            match evaluate_expression shell ctx condition with
            | (ctx, Except.ok result) => (truthyStr result, ctx)
            | (ctx, Except.error _) => (true, ctx)
        | none => (true, ctx)
  | RunMode.StepOver => (true, ctx)
  | RunMode.StepInto => (true, ctx)
  | RunMode.StepOut => (decide (ctx.call_stack.length ≤ ctx.step_out_target_depth), ctx)

/-- `DebugContext::handle_step_command`: the named step requests; only
`stepOut` touches `step_out_target_depth`. -/
def handle_step_command (ctx : DebugContext) (step_type : String) : DebugContext :=
  if step_type == "continue" then { ctx with mode := RunMode.Continue }
  else if step_type == "next" || step_type == "stepOver" then
    { ctx with mode := RunMode.StepOver }
  else if step_type == "stepIn" || step_type == "stepInto" then
    { ctx with mode := RunMode.StepInto }
  else if step_type == "stepOut" then
    { ctx with mode := RunMode.StepOut,
               step_out_target_depth := ctx.call_stack.length - 1 }
  else ctx

/-- `DebugContext::set_variable` (DAP `setVariable`): run `SET name=value`
through the shell, update `last_exit_code`, and mirror the write into the
scope chosen before the call. -/
def set_variable (shell : Shell) (ctx : DebugContext) (name value : String) :
    DebugContext × Except Unit Unit :=
  let in_local_scope := ((ctx.call_stack.getLast?).map (fun fr => fr.has_setlocal)).getD false
  match shell ("SET " ++ name ++ "=" ++ value) with
  | some (_, exit_code) =>
      let ctx := { ctx with last_exit_code := exit_code }
      if in_local_scope then
        ({ ctx with call_stack :=
            modifyTop (fun f => { f with locals := mapInsert f.locals name value }) ctx.call_stack },
         Except.ok ())
      else ({ ctx with vars := mapInsert ctx.vars name value }, Except.ok ())
  | none => (ctx, Except.error ())

/-- `DebugContext::set_loop_variable`. -/
def set_loop_variable (ctx : DebugContext) (name value : String) : DebugContext :=
  storeScoped ctx name value

/-- `DebugContext::expand_variables` helper: run `echo <text>` through the
shell and return the trimmed output.  The exit code of that run is
discarded (`let (output, _) = …`), so the context is returned unchanged. -/
def expand_variables (shell : Shell) (ctx : DebugContext) (text : String) :
    DebugContext × Except Unit String :=
  match shell ("echo " ++ text) with
  | some (output, _) => (ctx, Except.ok (sTrim output))
  | none => (ctx, Except.error ())

/-! ## `IF` conditions (`src/parser/commands.rs` types, `context.rs` evaluation) -/

/-- `IfCondition` from `src/parser/commands.rs`. -/
inductive IfCondition where
  | ErrorLevel (nt : Bool) (level : Int)
  | StringEqual (nt : Bool) (left right : String)
  | Exist (nt : Bool) (path : String)
  | Defined (nt : Bool) (var : String)
  | Compare (nt : Bool) (left op right : String)
deriving DecidableEq, Repr

/-- Numeric comparison dispatch of `evaluate_if_condition`. -/
def compareInts (op : String) (l r : Int) : Bool :=
  let u := sUpper op
  if u == "EQU" then l == r
  else if u == "NEQ" then l != r
  else if u == "LSS" then decide (l < r)
  else if u == "LEQ" then decide (l ≤ r)
  else if u == "GTR" then decide (l > r)
  else if u == "GEQ" then decide (l ≥ r)
  else false

/-- String comparison dispatch of `evaluate_if_condition` (case-insensitive
equality, lower-cased lexicographic order). -/
def compareStrs (op : String) (l r : String) : Bool :=
  let u := sUpper op
  if u == "EQU" then eqIgnoreCase l r
  else if u == "NEQ" then !(eqIgnoreCase l r)
  else if u == "LSS" then sLt (sLower l) (sLower r)
  else if u == "LEQ" then sLe (sLower l) (sLower r)
  else if u == "GTR" then sLt (sLower r) (sLower l)
  else if u == "GEQ" then sLe (sLower r) (sLower l)
  else false

/-- `DebugContext::evaluate_if_condition`.  `ErrorLevel` compares
`last_exit_code ≥ n` locally; `Exist` asks the shell (discarding the exit
code); `Defined` consults the visible variables; `StringEqual` and `Compare`
expand both sides via `echo` first.  `NOT` negates the result. -/
def evaluate_if_condition (shell : Shell) (ctx : DebugContext) (condition : IfCondition) :
    DebugContext × Except Unit Bool :=
  match condition with
  | IfCondition.ErrorLevel nt level =>
      let result := decide (ctx.last_exit_code ≥ level)
      (ctx, Except.ok (if nt then !result else result))
  | IfCondition.StringEqual nt left right =>
      match expand_variables shell ctx left with
      | (ctx, Except.error e) => (ctx, Except.error e)
      | (ctx, Except.ok left_expanded) =>
          match expand_variables shell ctx right with
          | (ctx, Except.error e) => (ctx, Except.error e)
          | (ctx, Except.ok right_expanded) =>
              let result := eqIgnoreCase left_expanded right_expanded
              (ctx, Except.ok (if nt then !result else result))
  | IfCondition.Exist nt path =>
      match expand_variables shell ctx path with
      | (ctx, Except.error e) => (ctx, Except.error e)
      | (ctx, Except.ok path_expanded) =>
          let check_cmd := "if exist \"" ++ path_expanded ++ "\" (echo 1) else (echo 0)"
          match shell check_cmd with
          | some (output, _) =>
              let result := sTrim output == "1"
              (ctx, Except.ok (if nt then !result else result))
          | none => (ctx, Except.error ())
  | IfCondition.Defined nt var =>
      let result := mapHas (get_visible_variables ctx) var
      (ctx, Except.ok (if nt then !result else result))
  | IfCondition.Compare nt left op right =>
      match expand_variables shell ctx left with
      | (ctx, Except.error e) => (ctx, Except.error e)
      | (ctx, Except.ok left_expanded) =>
          match expand_variables shell ctx right with
          | (ctx, Except.error e) => (ctx, Except.error e)
          | (ctx, Except.ok right_expanded) =>
              let result :=
                match parse_i32 (sTrim left_expanded), parse_i32 (sTrim right_expanded) with
                | some l, some r => compareInts op l r
                | _, _ => compareStrs op left_expanded right_expanded
              (ctx, Except.ok (if nt then !result else result))

/-! ## `FOR` loops (`src/parser/commands.rs` types, `context.rs` expansion) -/

/-- `ForFileSource` from `src/parser/commands.rs`. -/
inductive ForFileSource where
  | File (path : String)
  | Command (cmd : String)
  | Str (s : String)
deriving DecidableEq, Repr

/-- `ForLoopType` from `src/parser/commands.rs`.  The source's `FileParser`
constructor is named `FileParse` here. -/
inductive ForLoopType where
  | Basic (var : String) (items : List String) (command : String)
  | Numeric (var : String) (start step endv : Int) (command : String)
  | FileParse (var options : String) (source : ForFileSource) (command : String)
  | Directory (var pattern command : String)
  | Recursive (var : String) (root_path : Option String) (pattern command : String)
deriving DecidableEq, Repr

/-- Lower bound of the source's `i32` loop counter: `-2^31`. -/
def i32min : Int := -2147483648

/-- Upper bound of the source's `i32` loop counter: `2^31 - 1`. -/
def i32max : Int := 2147483647

/-- Two's-complement wrap of an integer into the `i32` range
(`4294967296 = 2^32`): the value the source's `current + step` takes in a
release build when the addition overflows.  A debug build panics at the
same point; in neither case does the source continue with the unbounded
mathematical integer. -/
def wrap32 (n : Int) : Int := (n + 2147483648) % 4294967296 - 2147483648

/-- Positive-step arm of the numeric `FOR /L` expansion: the source's
`while current <= end { push; current += step }` loop over an `i32`
counter, the increment wrapped to `i32` (`wrap32`).  The loop is fuelled
because the source loop genuinely does not terminate when the wrapped
guard can never fail (e.g. `end = i32::MAX` with a positive step): the
`Bool` records whether the guard failed — the source loop exited
normally (`true`) — or the fuel ran out with the guard still holding
(`false`). -/
def posLoop (var command : String) (step endv : Int) :
    Nat → Int → List (String × String × String) × Bool
  | 0, current => if current ≤ endv then ([], false) else ([], true)
  | Nat.succ f, current =>
      if current ≤ endv then
        let value := toString current
        let r := posLoop var command step endv f (wrap32 (current + step))
        ((sReplace command var value, var, value) :: r.1, r.2)
      else ([], true)

/-- Negative-step arm of the numeric `FOR /L` expansion
(`while current >= end`), wrapped and fuelled like `posLoop`. -/
def negLoop (var command : String) (step endv : Int) :
    Nat → Int → List (String × String × String) × Bool
  | 0, current => if current ≥ endv then ([], false) else ([], true)
  | Nat.succ f, current =>
      if current ≥ endv then
        let value := toString current
        let r := negLoop var command step endv f (wrap32 (current + step))
        ((sReplace command var value, var, value) :: r.1, r.2)
      else ([], true)

/-- Fuel with which `expand_for_loop` runs the numeric loops: `2^32`.  A
terminating run of the source's loop visits pairwise distinct `i32`
counter values (a repeated counter value would recur forever), so it
exits within `2^32` iterations and the fuelled model returns exactly the
source's list on every input on which the source's loop exits. -/
def loopFuel : Nat := 4294967296

/-- Command string rebuilt by the `FOR /F` expansion (delegating to the
shell with an `echo`-only body). -/
def forFileCmd (var options : String) (source : ForFileSource) : String :=
  match source with
  | ForFileSource.File path =>
      if sEmpty options then
        "FOR /F " ++ var ++ " IN (" ++ path ++ ") DO echo " ++ var
      else
        "FOR /F \"" ++ options ++ "\" " ++ var ++ " IN (" ++ path ++ ") DO echo " ++ var
  | ForFileSource.Command cmd =>
      if sEmpty options then
        "FOR /F " ++ var ++ " IN ('" ++ cmd ++ "') DO echo " ++ var
      else
        "FOR /F \"" ++ options ++ "\" " ++ var ++ " IN ('" ++ cmd ++ "') DO echo " ++ var
  | ForFileSource.Str s =>
      if sEmpty options then
        "FOR /F " ++ var ++ " IN (\"" ++ s ++ "\") DO echo " ++ var
      else
        "FOR /F \"" ++ options ++ "\" " ++ var ++ " IN (\"" ++ s ++ "\") DO echo " ++ var

/-- One iteration triple per non-empty trimmed output line, shared by the
`/F`, `/D` and `/R` expansions. -/
def itersFromOutput (var command output : String) : List (String × String × String) :=
  (sSplitC output '\n').foldr
    (fun ln acc =>
      let value := sTrim ln
      if !(sEmpty value) then (sReplace command var value, var, value) :: acc
      else acc) []

/-- `DebugContext::expand_for_loop`: expand a parsed `FOR` into the ordered
iteration triples `(command_text, loop_var_name, loop_var_value)`. -/
def expand_for_loop (shell : Shell) (ctx : DebugContext) (loop_type : ForLoopType) :
    DebugContext × Except Unit (List (String × String × String)) :=
  match loop_type with
  | ForLoopType.Basic var items command =>
      let rec go (ctx : DebugContext) :
          List String → DebugContext × Except Unit (List (String × String × String))
        | [] => (ctx, Except.ok [])
        | item :: rest =>
            match expand_variables shell ctx item with
            | (ctx, Except.error e) => (ctx, Except.error e)
            | (ctx, Except.ok expanded_item) =>
                match go ctx rest with
                | (ctx, Except.error e) => (ctx, Except.error e)
                | (ctx, Except.ok tail) =>
                    (ctx, Except.ok
                      ((sReplace command var expanded_item, var, expanded_item) :: tail))
      go ctx items
  | ForLoopType.Numeric var start step endv command =>
      if 0 < step then (ctx, Except.ok (posLoop var command step endv loopFuel start).1)
      else if step < 0 then (ctx, Except.ok (negLoop var command step endv loopFuel start).1)
      else (ctx, Except.ok [])
  | ForLoopType.FileParse var options source command =>
      match shell (forFileCmd var options source) with
      | some (output, _) => (ctx, Except.ok (itersFromOutput var command output))
      | none => (ctx, Except.error ())
  | ForLoopType.Directory var pattern command =>
      match shell ("FOR /D " ++ var ++ " IN (" ++ pattern ++ ") DO echo " ++ var) with
      | some (output, _) => (ctx, Except.ok (itersFromOutput var command output))
      | none => (ctx, Except.error ())
  | ForLoopType.Recursive var root_path pattern command =>
      let for_cmd :=
        match root_path with
        | some path =>
            "FOR /R " ++ path ++ " " ++ var ++ " IN (" ++ pattern ++ ") DO echo " ++ var
        | none => "FOR /R " ++ var ++ " IN (" ++ pattern ++ ") DO echo " ++ var
      match shell for_cmd with
      | some (output, _) => (ctx, Except.ok (itersFromOutput var command output))
      | none => (ctx, Except.error ())

/-! ## `PUSHD` / `POPD` / `SHIFT` (`src/debugger/context.rs`) -/

/-- `DebugContext::handle_pushd`: push the process's current directory onto
the stack; with a path, change directory and sync the shell with `cd /d`.
The process current directory is threaded explicitly as `cwd`; a failure of
the shell sync propagates as the error (filesystem failures of
`set_current_dir` are not modelled). -/
def handle_pushd (shell : Shell) (ctx : DebugContext) (cwd : String) (path : Option String) :
    DebugContext × String × Except Unit Unit :=
  let ctx := { ctx with directory_stack := ctx.directory_stack ++ [cwd] }
  match path with
  | none => (ctx, cwd, Except.ok ())
  | some new_path =>
      match shell ("cd /d " ++ new_path) with
      | some (_, exit_code) =>
          ({ ctx with last_exit_code := exit_code }, new_path, Except.ok ())
      | none => (ctx, new_path, Except.error ())

/-- `DebugContext::handle_popd`: on an empty stack set `last_exit_code = 1`
and fail; otherwise pop the last directory, change to it and sync the
shell. -/
def handle_popd (shell : Shell) (ctx : DebugContext) (cwd : String) :
    DebugContext × String × Except Unit Unit :=
  match ctx.directory_stack.getLast? with
  | some dir =>
      let ctx := { ctx with directory_stack := ctx.directory_stack.dropLast }
      match shell ("cd /d " ++ dir) with
      | some (_, exit_code) =>
          ({ ctx with last_exit_code := exit_code }, dir, Except.ok ())
      | none => (ctx, dir, Except.error ())
  | none =>
      ({ ctx with last_exit_code := 1 }, cwd, Except.error ())

/-- `DebugContext::handle_shift`: drop the first `min(count, |args|)`
positional arguments of the top frame (no-op for a zero count, a frameless
context, or a frame without arguments). -/
def handle_shift (ctx : DebugContext) (count : Nat) : DebugContext :=
  match ctx.call_stack.getLast? with
  | some fr =>
      match fr.args with
      | some args =>
          if count > 0 then
            let actual_shift := min count args.length
            { ctx with call_stack :=
                modifyTop (fun f => { f with args := some (args.drop actual_shift) }) ctx.call_stack }
          else ctx
      | none => ctx
  | none => ctx

/-! ## Composite split (`src/parser/commands.rs`, `split_composite_command`) -/

/-- `CommandOp` from `src/parser/commands.rs`. -/
inductive CommandOp where
  | Unconditional
  | And
  | Or
deriving DecidableEq, Repr

/-- `CommandPart` from `src/parser/commands.rs`. -/
structure CommandPart where
  text : String
  op : Option CommandOp
deriving DecidableEq, Repr

/-- Character scan of `split_composite_command`: `escaped` is the pending
`^` escape, `inq` the double-quote state, `current` the accumulating part,
`acc` the parts already emitted.  Fuelled for structural recursion (a fuel
of the input length always suffices since every step consumes at least one
character; the fuel-exhausted arm is never reached from
`split_composite_command`). -/
def splitCCAux : Nat → List Char → Bool → Bool → List Char → List CommandPart → List CommandPart
  | _, [], _, _, current, acc =>
      if !(sEmpty (sTrim (String.mk current))) then
        acc ++ [{ text := sTrim (String.mk current), op := none }]
      else acc
  | 0, c :: cs, _, _, current, acc =>
      if !(sEmpty (sTrim (String.mk (current ++ c :: cs)))) then
        acc ++ [{ text := sTrim (String.mk (current ++ c :: cs)), op := none }]
      else acc
  | Nat.succ fuel, c :: cs, escaped, inq, current, acc =>
      if escaped then splitCCAux fuel cs false inq (current ++ [c]) acc
      else if c == '^' then splitCCAux fuel cs true inq (current ++ [c]) acc
      else if c == '"' then splitCCAux fuel cs false (!inq) (current ++ [c]) acc
      else if !inq && c == '&' then
        if cs.head? == some '&' then
          splitCCAux fuel cs.tail false inq []
            (acc ++ [{ text := sTrim (String.mk current), op := some CommandOp.And }])
        else
          splitCCAux fuel cs false inq []
            (acc ++ [{ text := sTrim (String.mk current), op := some CommandOp.Unconditional }])
      else if !inq && c == '|' then
        if cs.head? == some '|' then
          splitCCAux fuel cs.tail false inq []
            (acc ++ [{ text := sTrim (String.mk current), op := some CommandOp.Or }])
        else splitCCAux fuel cs false inq (current ++ [c]) acc
      else splitCCAux fuel cs false inq (current ++ [c]) acc

/-- `split_composite_command` from `src/parser/commands.rs`: split on
unquoted, unescaped `&`, `&&` and `||`; a blank trailing remainder is not
emitted. -/
def split_composite_command (line : String) : List CommandPart :=
  splitCCAux line.data.length line.data false false [] []

/-! ## Redirection parsing (`src/parser/commands.rs`, `parse_redirections`) -/

/-- `Redirection` from `src/parser/commands.rs`. -/
structure Redirection where
  operator : String
  target : String
deriving DecidableEq, Repr

/-- `CommandWithRedirections` from `src/parser/commands.rs`. -/
structure CommandWithRedirections where
  base_command : String
  redirections : List Redirection
deriving DecidableEq, Repr

/-- Skip blanks after a redirection operator (`while chars.peek() == ' '`). -/
def skipSpaces : List Char → List Char
  | ' ' :: cs => skipSpaces cs
  | cs => cs

/-- Target scan of `parse_redirections`: take characters up to a blank or
the next operator character. -/
def takeTarget (cs : List Char) : String × List Char :=
  let stop := fun (c : Char) => c == ' ' || c == '>' || c == '<' || c == '|' || c == '&'
  (String.mk (cs.takeWhile (fun c => !stop c)), cs.dropWhile (fun c => !stop c))

/-- Character scan of `parse_redirections`, fuelled for structural
recursion (a fuel of the input length always suffices since every step
consumes at least one character). -/
def redirAux : Nat → List Char → Bool → List Char → List Char → List Redirection →
    CommandWithRedirections
  | _, [], _, current, base, redirs =>
      { base_command := sTrim (String.mk (base ++ current)), redirections := redirs }
  | 0, cs, _, current, base, redirs =>
      { base_command := sTrim (String.mk (base ++ current ++ cs)), redirections := redirs }
  | Nat.succ fuel, c :: cs, inq, current, base, redirs =>
      if c == '"' then redirAux fuel cs (!inq) (current ++ [c]) base redirs
      else if inq then redirAux fuel cs inq (current ++ [c]) base redirs
      else if c == '>' then
        match cs with
        | '>' :: cs2 =>
            let rest := skipSpaces cs2
            let (target, rest) := takeTarget rest
            redirAux fuel rest inq [] (base ++ current)
              (redirs ++ [{ operator := ">>", target := sTrim target }])
        | _ =>
            let rest := skipSpaces cs
            let (target, rest) := takeTarget rest
            redirAux fuel rest inq [] (base ++ current)
              (redirs ++ [{ operator := ">", target := sTrim target }])
      else if c == '<' then
        let rest := skipSpaces cs
        let (target, rest) := takeTarget rest
        redirAux fuel rest inq [] (base ++ current)
          (redirs ++ [{ operator := "<", target := sTrim target }])
      else if c == '2' then
        match cs with
        | '>' :: cs2 =>
            (match cs2 with
             | '&' :: cs3 =>
                 (match cs3 with
                  | '1' :: cs4 =>
                      redirAux fuel cs4 inq [] (base ++ current)
                        (redirs ++ [{ operator := "2>&1", target := "" }])
                  | _ => redirAux fuel cs3 inq (current ++ ['2', '>', '&']) base redirs)
             | _ =>
                 let rest := skipSpaces cs2
                 let (target, rest) := takeTarget rest
                 redirAux fuel rest inq [] (base ++ current)
                   (redirs ++ [{ operator := "2>", target := sTrim target }]))
        | _ => redirAux fuel cs inq (current ++ [c]) base redirs
      else if c == '|' then
        match cs with
        | '|' :: cs2 => redirAux fuel cs2 inq (current ++ ['|', '|']) base redirs
        | _ =>
            let rest := skipSpaces cs
            let target := String.mk rest
            { base_command := sTrim (String.mk (base ++ current)),
              redirections := redirs ++ [{ operator := "|", target := sTrim target }] }
      else redirAux fuel cs inq (current ++ [c]) base redirs

/-- `parse_redirections` from `src/parser/commands.rs`. -/
def parse_redirections (line : String) : CommandWithRedirections :=
  redirAux line.data.length line.data false [] [] []

/-! ## `IF` statement parsing (`src/parser/commands.rs`) -/

/-- `IfStatement` from `src/parser/commands.rs` (`else_command` is always
`None`; `ELSE` is not parsed). -/
structure IfStatement where
  condition : IfCondition
  then_command : String
  else_command : Option String
deriving DecidableEq, Repr

/-- `find_command_start` from `src/parser/commands.rs`: position after a
(possibly quoted) condition value where the then-command starts. -/
def find_command_start (text : String) : Option Nat :=
  let text := sTrim text
  let quoted :=
    if sStartsC text '"' then
      match sFindC (sDrop text 1) '"' with
      | some end_quote => some (end_quote + 2)
      | none => none
    else none
  match quoted with
  | some r => some r
  | none =>
      match sFindC text ' ' with
      | some space_pos => some (space_pos + 1)
      | none => none

/-- The `ERRORLEVEL` attempt of `parse_if_statement`. -/
def tryErrorLevel (nt : Bool) (rest upper_rest : String) : Option IfStatement :=
  if sStarts upper_rest "ERRORLEVEL " then
    let after_keyword := sTrim (sDrop rest 11)
    match sFindC after_keyword ' ' with
    | some space_pos =>
        let level_str := sTrim (sTake after_keyword space_pos)
        let command := sTrim (sDrop after_keyword space_pos)
        match parse_i32 level_str with
        | some level =>
            some { condition := IfCondition.ErrorLevel nt level,
                   then_command := command, else_command := none }
        | none => none
    | none => none
  else none

/-- The `EXIST` attempt of `parse_if_statement`. -/
def tryExist (nt : Bool) (rest upper_rest : String) : Option IfStatement :=
  if sStarts upper_rest "EXIST " then
    let after_keyword := sTrim (sDrop rest 6)
    match find_command_start after_keyword with
    | some command_start =>
        some { condition := IfCondition.Exist nt (sTrim (sTake after_keyword command_start)),
               then_command := sTrim (sDrop after_keyword command_start), else_command := none }
    | none => none
  else none

/-- The `DEFINED` attempt of `parse_if_statement`. -/
def tryDefined (nt : Bool) (rest upper_rest : String) : Option IfStatement :=
  if sStarts upper_rest "DEFINED " then
    let after_keyword := sTrim (sDrop rest 8)
    match find_command_start after_keyword with
    | some command_start =>
        some { condition := IfCondition.Defined nt (sTrim (sTake after_keyword command_start)),
               then_command := sTrim (sDrop after_keyword command_start), else_command := none }
    | none => none
  else none

/-- One comparison-operator attempt of `parse_if_statement`. -/
def tryCompareOp (nt : Bool) (rest upper_rest op : String) : Option IfStatement :=
  match sFindS upper_rest (" " ++ op ++ " ") with
  | some op_pos =>
      let left := sTrim (sTake rest op_pos)
      let after_op := sDrop rest (op_pos + sLen op + 2)
      match find_command_start after_op with
      | some command_start =>
          some { condition :=
                   IfCondition.Compare nt left op (sTrim (sTake after_op command_start)),
                 then_command := sTrim (sDrop after_op command_start), else_command := none }
      | none => none
  | none => none

/-- The `==` string-equality attempt of `parse_if_statement`. -/
def tryStringEqual (nt : Bool) (rest : String) : Option IfStatement :=
  match sFindS rest "==" with
  | some eq_pos =>
      let left := sTrim (sTake rest eq_pos)
      let after_eq := sTrim (sDrop rest (eq_pos + 2))
      match find_command_start after_eq with
      | some command_start =>
          some { condition :=
                   IfCondition.StringEqual nt left (sTrim (sTake after_eq command_start)),
                 then_command := sTrim (sDrop after_eq command_start), else_command := none }
      | none => none
  | none => none

/-- `parse_if_statement` from `src/parser/commands.rs`: optional `NOT`, then
the attempts in the source's order (`ERRORLEVEL`, `EXIST`, `DEFINED`, the
six comparison operators, `==`). -/
def parse_if_statement (line : String) : Option IfStatement :=
  let trimmed := sTrim line
  let upper := sUpper trimmed
  if !(sStarts upper "IF ") then none
  else
    let rest := sTrim (sDrop trimmed 3)
    let (nt, rest) :=
      if sStarts (sUpper rest) "NOT " then (true, sTrim (sDrop rest 4)) else (false, rest)
    let upper_rest := sUpper rest
    (tryErrorLevel nt rest upper_rest) <|>
    (tryExist nt rest upper_rest) <|>
    (tryDefined nt rest upper_rest) <|>
    (tryCompareOp nt rest upper_rest "EQU") <|>
    (tryCompareOp nt rest upper_rest "NEQ") <|>
    (tryCompareOp nt rest upper_rest "LSS") <|>
    (tryCompareOp nt rest upper_rest "LEQ") <|>
    (tryCompareOp nt rest upper_rest "GTR") <|>
    (tryCompareOp nt rest upper_rest "GEQ") <|>
    (tryStringEqual nt rest)

/-! ## `FOR` statement parsing (`src/parser/commands.rs`) -/

/-- `ForStatement` from `src/parser/commands.rs`. -/
structure ForStatement where
  loop_type : ForLoopType
deriving DecidableEq, Repr

/-- Loop-variable token scan shared by the `FOR` sub-parsers: `%%X` (three
characters) or `%X` (two characters). -/
def forVarSplit (text : String) : Option (String × String) :=
  if !(sStartsC text '%') then none
  else
    let var_end := if sStarts text "%%" then 3 else 2
    if sLen text < var_end then none
    else some (sTake text var_end, sTrim (sDrop text var_end))

/-- Shared `IN ( … ) DO …` scan of the `FOR` sub-parsers: returns the text
between the parentheses and the body after `DO `. -/
def forInDoSplit (rest : String) : Option (String × String) :=
  if !(sStarts (sUpper rest) "IN ") then none
  else
    let after_in := sTrim (sDrop rest 3)
    if !(sStartsC after_in '(') then none
    else
      match sFindC after_in ')' with
      | some close_paren =>
          let inner := sSlice after_in 1 close_paren
          let after_paren := sTrim (sDrop after_in (close_paren + 1))
          if !(sStarts (sUpper after_paren) "DO ") then none
          else some (inner, sTrim (sDrop after_paren 3))
      | none => none

/-- `parse_for_basic` from `src/parser/commands.rs`. -/
def parse_for_basic (text : String) : Option ForStatement :=
  let text := sTrim text
  match forVarSplit text with
  | none => none
  | some (var, rest) =>
      match forInDoSplit rest with
      | none => none
      | some (items_str, command) =>
          some { loop_type := ForLoopType.Basic var (sWords items_str) command }

/-- `parse_for_numeric` from `src/parser/commands.rs` (`FOR /L`): exactly
three comma-separated `i32` values `(start,step,end)`. -/
def parse_for_numeric (text : String) : Option ForStatement :=
  let text := sTrim text
  match forVarSplit text with
  | none => none
  | some (var, rest) =>
      match forInDoSplit rest with
      | none => none
      | some (range_str, command) =>
          match sSplitC range_str ',' with
          | [p0, p1, p2] =>
              match parse_i32 (sTrim p0), parse_i32 (sTrim p1), parse_i32 (sTrim p2) with
              | some start, some step, some endv =>
                  some { loop_type := ForLoopType.Numeric var start step endv command }
              | _, _, _ => none
          | _ => none

/-- `parse_for_file_parser` from `src/parser/commands.rs` (`FOR /F`):
optional quoted options, then the variable, then a source that is a command
(single quotes containing `|` or `&`), a literal string (other single
quotes), or a file path. -/
def parse_for_file_source (text : String) : Option ForStatement :=
  let text := sTrim text
  let split :=
    if sStartsC text '"' then
      match sFindC (sDrop text 1) '"' with
      | some close_quote =>
          some (sSlice text 1 (close_quote + 1), sTrim (sDrop text (close_quote + 2)))
      | none => none
    else some ("", text)
  match split with
  | none => none
  | some (options, rest) =>
      match forVarSplit rest with
      | none => none
      | some (var, rest) =>
          match forInDoSplit rest with
          | none => none
          | some (source_str, command) =>
              let source :=
                if sStartsC source_str '\'' && sEndsC source_str '\'' then
                  let content := sSlice source_str 1 (sLen source_str - 1)
                  if sHasC content '|' || sHasC content '&' then ForFileSource.Command content
                  else ForFileSource.Str content
                else ForFileSource.File source_str
              some { loop_type := ForLoopType.FileParse var options source command }

/-- `parse_for_directory` from `src/parser/commands.rs` (`FOR /D`). -/
def parse_for_directory (text : String) : Option ForStatement :=
  let text := sTrim text
  match forVarSplit text with
  | none => none
  | some (var, rest) =>
      match forInDoSplit rest with
      | none => none
      | some (pattern, command) =>
          some { loop_type := ForLoopType.Directory var pattern command }

/-- `parse_for_recursive` from `src/parser/commands.rs` (`FOR /R`):
optional root path before the variable token. -/
def parse_for_recursive (text : String) : Option ForStatement :=
  let text := sTrim text
  let rootSplit :=
    if sHasC text '%' then
      match sFindC text '%' with
      | some var_pos =>
          let before_var := sTrim (sTake text var_pos)
          if sEmpty before_var then some (none, text)
          else some (some before_var, sDrop text var_pos)
      | none => none
    else some (none, text)
  match rootSplit with
  | none => none
  | some (root_path, rest) =>
      match forVarSplit rest with
      | none => none
      | some (var, rest) =>
          match forInDoSplit rest with
          | none => none
          | some (pattern, command) =>
              some { loop_type := ForLoopType.Recursive var root_path pattern command }

/-- `parse_for_statement` from `src/parser/commands.rs`: dispatch on `/L`,
`/F`, `/D`, `/R`, then the basic form. -/
def parse_for_statement (line : String) : Option ForStatement :=
  let trimmed := sTrim line
  let upper := sUpper trimmed
  if !(sStarts upper "FOR ") then none
  else
    let rest := sTrim (sDrop trimmed 4)
    let upper_rest := sUpper rest
    if sStarts upper_rest "/L " then parse_for_numeric (sTrim (sDrop rest 3))
    else if sStarts upper_rest "/F " then parse_for_file_source (sTrim (sDrop rest 3))
    else if sStarts upper_rest "/D " then parse_for_directory (sTrim (sDrop rest 3))
    else if sStarts upper_rest "/R " then parse_for_recursive (sTrim (sDrop rest 3))
    else parse_for_basic rest

/-! ## DAP server handlers (`src/dap/server.rs`) -/

/-- One entry of a `setBreakpoints` request: the optional 1-based physical
`line` and the optional `condition` string. -/
structure SetBpEntry where
  line : Option Nat
  condition : Option String
deriving DecidableEq, Repr

/-- `DapServer::handle_set_breakpoints`, restricted to its effect on the
debug context and its verified-line echo.  Each requested physical line is
mapped through `phys_to_logical`; out-of-range requests are silently
dropped; every surviving pair is added to the context with
`add_breakpoint_with_condition`.  (The handler never removes breakpoints
from the context.)  The returned list is the echoed verified physical
lines. -/
def handle_set_breakpoints (ctx : DebugContext) (phys_to_logical : List Nat)
    (reqs : List SetBpEntry) : DebugContext × List Nat :=
  let logical_lines : List (Nat × Option String) :=
    reqs.foldl
      (fun acc bp =>
        match bp.line with
        | none => acc
        | some line =>
            let phys_line := line - 1
            match phys_to_logical.get? phys_line with
            | some logical_line => acc ++ [(logical_line, bp.condition)]
            | none => acc) []
  let verified : List Nat :=
    reqs.foldl
      (fun acc bp =>
        match bp.line with
        | none => acc
        | some line =>
            if line - 1 < phys_to_logical.length then acc ++ [line] else acc) []
  (logical_lines.foldl (fun c e => add_breakpoint_with_condition c e.1 e.2) ctx, verified)

/-- `DapServer::handle_continue` effect on the context. -/
def handle_continue (ctx : DebugContext) : DebugContext :=
  { set_mode ctx RunMode.Continue with continue_requested := true }

/-- `DapServer::handle_next` effect on the context. -/
def handle_next (ctx : DebugContext) : DebugContext :=
  { set_mode ctx RunMode.StepOver with continue_requested := true }

/-- `DapServer::handle_step_in` effect on the context. -/
def handle_step_in (ctx : DebugContext) : DebugContext :=
  { set_mode ctx RunMode.StepInto with continue_requested := true }

/-- `DapServer::handle_step_out` effect on the context: set the mode and
raise `continue_requested` — nothing else. -/
def handle_step_out (ctx : DebugContext) : DebugContext :=
  { set_mode ctx RunMode.StepOut with continue_requested := true }

/-- `DapServer::handle_pause` effect on the context (the synthetic stop
event is emitted by the session, not the engine). -/
def handle_pause (ctx : DebugContext) : DebugContext :=
  set_mode ctx RunMode.StepInto

/-! ## Execution engine (`src/executor/dap_runner.rs`) -/

/-- Modelled from the spec: a logical line (`src/parser/types.rs` is outside
the sources in view) carries the joined statement text and the starting
physical line; only these two fields are read by the engine. -/
structure LogicalLine where
  text : String
  phys_start : Nat
deriving DecidableEq, Repr

/-- The immutable per-launch inputs of `run_debugger_dap`: the preprocess
result (logical lines and the physical-to-logical map) and the label map
(label name, lowercased, to physical line index). -/
structure EngineInput where
  logical : List LogicalLine
  phys_to_logical : List Nat
  labels_phys : List (String × Nat)
deriving DecidableEq, Repr

/-- Label-map lookup (`labels_phys.get(&label_key)`). -/
def labelLookup (labels : List (String × Nat)) (key : String) : Option Nat :=
  match labels.find? (fun e => e.1 == key) with
  | some e => some e.2
  | none => none

/-- Modelled from the spec: tokenisation of `CALL` arguments by the external
`shlex` crate (shell-style splitting honouring quotes); the claims below do
not depend on its fine points. -/
def shlexAux : List Char → Option Char → Bool → List Char → List String → List String
  | [], _, started, cur, acc =>
      if started then acc ++ [String.mk cur.reverse] else acc
  | c :: cs, some q, started, cur, acc =>
      if c == q then shlexAux cs none true cur acc
      else shlexAux cs (some q) started (c :: cur) acc
  | c :: cs, none, started, cur, acc =>
      if c.isWhitespace then
        if started then shlexAux cs none false [] (acc ++ [String.mk cur.reverse])
        else shlexAux cs none false [] acc
      else if c == '"' || c == '\'' then shlexAux cs (some c) true cur acc
      else shlexAux cs none true (c :: cur) acc

/-- Modelled from the spec: `shlex::Shlex` token stream. -/
def shlexSplit (s : String) : List String := shlexAux s.data none false [] []

/-- `is_builtin_command` from `src/executor/dap_runner.rs` (display only). -/
def is_builtin_command (cmd : String) : Bool :=
  let cmd_upper := sUpper cmd
  let cmd_name := ((sWords cmd_upper).head?).getD cmd_upper
  [ "ASSOC", "BREAK", "CALL", "CD", "CHDIR", "CLS", "COLOR", "COPY", "DATE", "DEL",
    "DIR", "ECHO", "ENDLOCAL", "ERASE", "EXIT", "FOR", "FTYPE", "GOTO", "IF", "MD",
    "MKDIR", "MKLINK", "MOVE", "PATH", "PAUSE", "POPD", "PROMPT", "PUSHD", "RD",
    "REM", "REN", "RENAME", "RMDIR", "SET", "SETLOCAL", "SHIFT", "START", "TIME",
    "TITLE", "TYPE", "VER", "VERIFY", "VOL" ].contains cmd_name

/-- How one engine-loop iteration ends: proceed at a program counter,
`break 'run` (the driver then emits `terminated`), or propagate an I/O
error (the `?` operator, which skips the `terminated` event). -/
inductive ExecOutcome where
  | nextPc (pc : Nat)
  | breakRun
  | fatal
deriving DecidableEq, Repr

/-- Result of executing one (non-label, non-comment) line: the updated
context and process directory, the outcome, the strings sent on the output
channel, and the `(reason, line)` pairs sent on the stop-event channel. -/
structure ExecResult where
  ctx : DebugContext
  cwd : String
  outcome : ExecOutcome
  outputs : List String
  events : List (String × Nat)
deriving Repr

/-- The `SETLOCAL` branch of the engine (also used for `ENDLOCAL` with the
other handler): apply the context handler, run the raw line through the
shell, forward non-blank output, record the exit code. -/
def execScopeLine (shell : Shell) (ctx : DebugContext) (cwd : String) (pc : Nat)
    (line : String) (handler : DebugContext → DebugContext) : ExecResult :=
  let ctx := handler ctx
  match shell line with
  | some (out, code) =>
      { ctx := { ctx with last_exit_code := code }, cwd := cwd,
        outcome := ExecOutcome.nextPc (pc + 1),
        outputs := if !(sEmpty (sTrim out)) then [out] else [], events := [] }
  | none => { ctx := ctx, cwd := cwd, outcome := ExecOutcome.fatal, outputs := [], events := [] }

/-- The `CALL` branch: tokenise, resolve the label through the label map and
the preprocess map, push a frame returning to `pc + 1`.  An unknown label
breaks the run; a label whose physical line is outside the preprocess map
would panic in the source (modelled as `fatal`). -/
def execCall (inp : EngineInput) (ctx : DebugContext) (cwd : String) (pc : Nat)
    (line : String) : ExecResult :=
  let rest := sTrim (sDrop line 5)
  let tokens := shlexSplit rest
  let first := (tokens.head?).getD ""
  let label_key := sLower (sTrimStartC first ':')
  let args := tokens.tail
  match labelLookup inp.labels_phys label_key with
  | some phys_target =>
      match inp.phys_to_logical.get? phys_target with
      | some logical_target =>
          { ctx := { ctx with call_stack := ctx.call_stack ++ [Frame.new (pc + 1) (some args)] },
            cwd := cwd, outcome := ExecOutcome.nextPc logical_target, outputs := [], events := [] }
      | none =>
          { ctx := ctx, cwd := cwd, outcome := ExecOutcome.fatal, outputs := [], events := [] }
  | none => { ctx := ctx, cwd := cwd, outcome := ExecOutcome.breakRun, outputs := [], events := [] }

/-- The `EXIT /B` branch: parse the remaining text as an `i32` (defaulting
to 0), store it in `last_exit_code`, then pop one frame or end the run. -/
def execExitB (ctx : DebugContext) (cwd : String) (line : String) : ExecResult :=
  let rest := sTrim (sDrop line 7)
  let code := (parse_i32 rest).getD 0
  let ctx := { ctx with last_exit_code := code }
  match leave_context ctx.call_stack with
  | some (next_pc, stack) =>
      { ctx := { ctx with call_stack := stack }, cwd := cwd,
        outcome := ExecOutcome.nextPc next_pc, outputs := [], events := [] }
  | none => { ctx := ctx, cwd := cwd, outcome := ExecOutcome.breakRun, outputs := [], events := [] }

/-- The `GOTO` branch: `GOTO :EOF` unwinds one frame; otherwise resolve the
label (unknown label breaks the run; an out-of-map physical line would
panic, modelled as `fatal`). -/
def execGoto (inp : EngineInput) (ctx : DebugContext) (cwd : String) (line : String) : ExecResult :=
  let rest := sTrim (sDrop line 5)
  let label_key := sLower (((sWords (sTrimStartC rest ':')).head?).getD "")
  if label_key == "eof" then
    match leave_context ctx.call_stack with
    | some (next_pc, stack) =>
        { ctx := { ctx with call_stack := stack }, cwd := cwd,
          outcome := ExecOutcome.nextPc next_pc, outputs := [], events := [] }
    | none =>
        { ctx := ctx, cwd := cwd, outcome := ExecOutcome.breakRun, outputs := [], events := [] }
  else
    match labelLookup inp.labels_phys label_key with
    | some phys_target =>
        match inp.phys_to_logical.get? phys_target with
        | some logical_target =>
            { ctx := ctx, cwd := cwd, outcome := ExecOutcome.nextPc logical_target,
              outputs := [], events := [] }
        | none =>
            { ctx := ctx, cwd := cwd, outcome := ExecOutcome.fatal, outputs := [], events := [] }
    | none =>
        { ctx := ctx, cwd := cwd, outcome := ExecOutcome.breakRun, outputs := [], events := [] }

/-- The per-iteration loop of the engine's `FOR` branch: set the loop
variable, report the iteration, track `SET` effects, run the command
(errors are reported and the loop continues). -/
def execForIters (shell : Shell) (ctx : DebugContext)
    (iters : List (String × String × String)) (idx : Nat) : DebugContext × List String :=
  match iters with
  | [] => (ctx, [])
  | (command, var_name, var_value) :: rest =>
      let ctx := set_loop_variable ctx var_name var_value
      let iterOut := "  [" ++ toString (idx + 1) ++ "] " ++ var_name ++ "=" ++ var_value ++ "\r\n"
      let ctx := track_set_command shell ctx command
      match shell command with
      | some (out, code) =>
          let cmdOut := if !(sEmpty (sTrim out)) then [out] else []
          let ctx := { ctx with last_exit_code := code }
          let (ctx, outs) := execForIters shell ctx rest (idx + 1)
          (ctx, iterOut :: cmdOut ++ outs)
      | none =>
          let errOut := "ERROR: Error in iteration " ++ toString (idx + 1) ++ ": io error\r\n"
          let (ctx, outs) := execForIters shell ctx rest (idx + 1)
          (ctx, iterOut :: errOut :: outs)

/-- The display line the engine sends for one parsed redirection. -/
def redirOutputLine (r : Redirection) : Option String :=
  if r.operator == ">" then
    some ("  |-- Output redirected to: " ++ r.target ++ " (overwrite)\r\n")
  else if r.operator == ">>" then
    some ("  |-- Output redirected to: " ++ r.target ++ " (append)\r\n")
  else if r.operator == "<" then
    some ("  |-- Input redirected from: " ++ r.target ++ "\r\n")
  else if r.operator == "2>" then
    some ("  |-- Error output redirected to: " ++ r.target ++ "\r\n")
  else if r.operator == "2>&1" then
    some ("  |-- Error output redirected to stdout\r\n")
  else if r.operator == "|" then
    some ("  |-- Piped to: " ++ r.target ++ "\r\n")
  else none

/-- The plain-command tail of the engine: display redirections, track `SET`
effects, run the line, forward output, record the exit code, and scan the
data breakpoints — the only stop event emitted during execution, with the
literal reason string `"stopped"`. -/
def execPlain (shell : Shell) (ctx : DebugContext) (cwd : String) (pc : Nat)
    (line : String) : ExecResult :=
  let cwr := parse_redirections line
  let redirOut :=
    if cwr.redirections.isEmpty then [] else cwr.redirections.filterMap redirOutputLine
  let ctx := track_set_command shell ctx line
  match shell line with
  | some (out, code) =>
      let outs := redirOut ++ (if !(sEmpty (sTrim out)) then [out] else [])
      let ctx := { ctx with last_exit_code := code }
      match check_data_breakpoints ctx with
      | (true, ctx) =>
          let ctx := update_data_breakpoints ctx
          let ctx := { set_mode ctx RunMode.Continue with continue_requested := false }
          { ctx := ctx, cwd := cwd, outcome := ExecOutcome.nextPc (pc + 1),
            outputs := outs, events := [("stopped", pc)] }
      | (false, ctx) =>
          { ctx := ctx, cwd := cwd, outcome := ExecOutcome.nextPc (pc + 1),
            outputs := outs, events := [] }
  | none =>
      { ctx := ctx, cwd := cwd, outcome := ExecOutcome.breakRun,
        outputs := redirOut, events := [] }

/-- Execution of one non-label, non-comment logical line: the branch chain
of `run_debugger_dap` in source order (`SETLOCAL`, `ENDLOCAL`, `CALL`,
`EXIT /B`, `GOTO`, `PUSHD`, `POPD`, `SHIFT`, `FOR`, `IF` pre-evaluation,
then the plain-command tail). -/
def execLine (shell : Shell) (inp : EngineInput) (ctx : DebugContext) (cwd : String)
    (pc : Nat) (line : String) : ExecResult :=
  let line_upper := sUpper line
  if sStarts line_upper "SETLOCAL" then execScopeLine shell ctx cwd pc line handle_setlocal
  else if sStarts line_upper "ENDLOCAL" then execScopeLine shell ctx cwd pc line handle_endlocal
  else if sStarts line_upper "CALL " then execCall inp ctx cwd pc line
  else if sStarts line_upper "EXIT /B" then execExitB ctx cwd line
  else if sStarts line_upper "GOTO " then execGoto inp ctx cwd line
  else if sStarts line_upper "PUSHD" then
    let rest := sTrim (sDrop line 5)
    let path := if sEmpty rest then none else some rest
    let r := handle_pushd shell ctx cwd path
    { ctx := r.1, cwd := r.2.1, outcome := ExecOutcome.nextPc (pc + 1), outputs := [], events := [] }
  else if sStarts line_upper "POPD" then
    let r := handle_popd shell ctx cwd
    { ctx := r.1, cwd := r.2.1, outcome := ExecOutcome.nextPc (pc + 1), outputs := [], events := [] }
  else if sStarts line_upper "SHIFT" then
    let rest := sTrim (sDrop line 5)
    let count :=
      if sEmpty rest then 1
      else (((sWords rest).head?).bind (fun s => parse_usize (sTrimStartC s '/'))).getD 1
    { ctx := handle_shift ctx count, cwd := cwd, outcome := ExecOutcome.nextPc (pc + 1),
      outputs := [], events := [] }
  else if sStarts line_upper "FOR " then
    match parse_for_statement line with
    | some for_stmt =>
        match expand_for_loop shell ctx for_stmt.loop_type with
        | (ctx, Except.ok iterations) =>
            let header := "FOR: Loop: " ++ toString iterations.length ++ " iterations\r\n"
            let r := execForIters shell ctx iterations 0
            { ctx := r.1, cwd := cwd, outcome := ExecOutcome.nextPc (pc + 1),
              outputs := header :: r.2, events := [] }
        | (ctx, Except.error _) =>
            let r := execPlain shell ctx cwd pc line
            { r with outputs := ("ERROR: FOR loop expansion error: io error\r\n") :: r.outputs }
    | none => execPlain shell ctx cwd pc line
  else if sStarts line_upper "IF " then
    match parse_if_statement line with
    | some if_stmt =>
        match evaluate_if_condition shell ctx if_stmt.condition with
        | (ctx, Except.ok condition_result) =>
            let diag :=
              if condition_result then "IF: Condition is TRUE -> executing THEN branch\r\n"
              else "IF: Condition is FALSE -> skipping THEN branch\r\n"
            let r := execPlain shell ctx cwd pc line
            { r with outputs := diag :: r.outputs }
        | (ctx, Except.error _) => execPlain shell ctx cwd pc line
    | none => execPlain shell ctx cwd pc line
  else execPlain shell ctx cwd pc line

/-- The end-of-script unwinding loop at the top of each engine iteration
(`while pc >= pre.logical.len()`): pop frames until the program counter is
in range, or report termination.  Fuelled for structural recursion (a fuel
of the stack length always suffices since every pop removes one frame). -/
def unwindEofAux : Nat → List Frame → Nat → Nat → Option (List Frame × Nat)
  | fuel, stack, pc, len =>
      if pc < len then some (stack, pc)
      else
        match leave_context stack with
        | none => none
        | some (next_pc, rest) =>
            match fuel with
            | 0 => none
            | Nat.succ f => unwindEofAux f rest next_pc len

/-- The end-of-script unwinding loop with its fuel initialised. -/
def unwindEof (stack : List Frame) (pc len : Nat) : Option (List Frame × Nat) :=
  unwindEofAux stack.length stack pc len

/-- Reason string selection of the engine's stop site (`match ctx.mode()`
before sending the stop event). -/
def stopReasonOf (mode : RunMode) : String :=
  match mode with
  | RunMode.Continue => "breakpoint"
  | RunMode.StepInto => "step"
  | RunMode.StepOver => "step"
  | RunMode.StepOut => "step"

/-- The stop decision of the engine iteration (`let stop = match ctx.mode()`):
`Continue` and `StepOut` defer to the context, `StepInto` always stops,
`StepOver` compares the frame depth against the private `step_depth`
snapshot (stop when no snapshot exists). -/
def computeShouldStop (shell : Shell) (ctx : DebugContext) (step_depth : Option Nat)
    (pc : Nat) : Bool × DebugContext :=
  match ctx.mode with
  | RunMode.Continue => should_stop_at shell ctx pc
  | RunMode.StepInto => (true, ctx)
  | RunMode.StepOver =>
      match step_depth with
      | some target_depth => (decide (ctx.call_stack.length ≤ target_depth), ctx)
      | none => (true, ctx)
  | RunMode.StepOut => should_stop_at shell ctx pc

/-- How one engine iteration ends towards the driver: keep looping,
`terminated` (the driver sends the final `("terminated", 0)` marker), or an
I/O error return. -/
inductive EngineHalt where
  | terminated
  | ioError
deriving DecidableEq, Repr

/-- The mutable state of the engine loop: shared context, process current
directory, program counter, and the private `step_depth` snapshot. -/
structure EngineState where
  ctx : DebugContext
  cwd : String
  pc : Nat
  step_depth : Option Nat
deriving Repr

/-- Result of one engine iteration. -/
structure StepResult where
  st : EngineState
  halt : Option EngineHalt
  outputs : List String
  events : List (String × Nat)
deriving Repr

/-- One iteration of the `'run` loop of `run_debugger_dap`: unwind past the
end of script, skip labels and comments, decide whether to stop, emit the
stop event and await the resume (`resume` is the mode the session installed
before raising `continue_requested`; `none` models the poll watchdog, which
breaks the run), refresh `step_depth` from the new mode, then execute the
line. -/
def engineStep (shell : Shell) (inp : EngineInput) (resume : Option RunMode)
    (st : EngineState) : StepResult :=
  match unwindEof st.ctx.call_stack st.pc inp.logical.length with
  | none =>
      { st := st, halt := some EngineHalt.terminated, outputs := [], events := [] }
  | some (stack, pc) =>
      let ctx := { st.ctx with call_stack := stack }
      match inp.logical.get? pc with
      | none =>
          { st := { st with ctx := ctx, pc := pc }, halt := some EngineHalt.ioError,
            outputs := [], events := [] }
      | some ll =>
          let line := normalize_whitespace (sTrim ll.text)
          let line_upper := sUpper line
          if sStartsC (sTrim line) ':' then
            { st := { st with ctx := ctx, pc := pc + 1 }, halt := none,
              outputs := [], events := [] }
          else if sStarts line_upper "REM " || sStarts (sTrim line) "::" then
            { st := { st with ctx := ctx, pc := pc + 1 }, halt := none,
              outputs := [], events := [] }
          else
            let sres := computeShouldStop shell ctx st.step_depth pc
            let stop := sres.1
            let ctx := sres.2
            let stopEvents := if stop then [(stopReasonOf ctx.mode, pc)] else []
            let afterStop :
                Option (DebugContext × Option Nat) :=
              if stop then
                let ctx := { ctx with continue_requested := false, current_line := some pc }
                match resume with
                | none => none
                | some rm =>
                    let ctx := { ctx with mode := rm, continue_requested := true }
                    let step_depth :=
                      match rm with
                      | RunMode.StepOver => some ctx.call_stack.length
                      | _ => none
                    some (ctx, step_depth)
              else some (ctx, st.step_depth)
            match afterStop with
            | none =>
                { st := { st with pc := pc }, halt := some EngineHalt.terminated,
                  outputs := [], events := stopEvents }
            | some (ctx, step_depth) =>
                let r := execLine shell inp ctx st.cwd pc line
                let halt :=
                  match r.outcome with
                  | ExecOutcome.nextPc _ => none
                  | ExecOutcome.breakRun => some EngineHalt.terminated
                  | ExecOutcome.fatal => some EngineHalt.ioError
                let pc2 := match r.outcome with
                           | ExecOutcome.nextPc n => n
                           | _ => pc
                { st := { ctx := r.ctx, cwd := r.cwd, pc := pc2, step_depth := step_depth },
                  halt := halt, outputs := r.outputs, events := stopEvents ++ r.events }

/-! ## Supporting lemmas -/

/-- A true `sStarts` exposes the string's characters as the pattern followed
by a tail. -/
lemma sStarts_eq_append (u p : String) (h : sStarts u p = true) :
    ∃ t, u.data = p.data ++ t := by
  simp only [sStarts, List.isPrefixOf_iff_prefix] at h
  obtain ⟨t, ht⟩ := h
  exact ⟨t, ht.symm⟩

/-- `expand_variables` never changes the context (it discards the shell's
exit code). -/
lemma expand_variables_fst (shell : Shell) (ctx : DebugContext) (text : String) :
    (expand_variables shell ctx text).1 = ctx := by
  unfold expand_variables
  rcases shell ("echo " ++ text) with _ | ⟨out, code⟩ <;> rfl

/-- `evaluate_expression` never touches the breakpoint table. -/
lemma evaluate_expression_breakpoints (shell : Shell) (ctx : DebugContext) (e : String) :
    ((evaluate_expression shell ctx e).1).breakpoints = ctx.breakpoints := by
  unfold evaluate_expression
  dsimp only
  repeat' split
  all_goals rfl

/-- Reading the modified entry of `bpModify`. -/
lemma bpGet_bpModify_self (t : BpTable) (line : Nat) (f : Breakpoint → Breakpoint) :
    bpGet (bpModify t line f) line = (bpGet t line).map f := by
  induction t with
  | nil => rfl
  | cons e rest ih =>
      rcases e with ⟨l, bp⟩
      by_cases hl : l = line
      · subst hl
        simp [bpGet, bpModify, List.find?]
      · simp only [bpModify, List.map_cons]
        rw [if_neg (by simpa using hl)]
        simp only [bpGet, List.find?] at ih ⊢
        rw [show ((l, bp).1 == line) = false by simpa using hl]
        simpa [bpModify] using ih

/-! ## C4 — `set_mode` and `step_out_target_depth` -/

/-- Context used to refute the original C4 statement: two frames on the
stack, a stale target depth of 5. -/
def c4ctx : DebugContext :=
  { DebugContext.new with
      call_stack := [Frame.new 0 none, Frame.new 1 none],
      step_out_target_depth := 5 }

/-- C4, counterexample: `set_mode(StepOut)` (and the DAP `stepOut` handler,
which only calls `set_mode` and raises `continue_requested`) leaves
`step_out_target_depth` at its stale value 5 instead of resetting it to the
current depth minus one (which would be 1). -/
theorem c4_counterexample :
    (set_mode c4ctx RunMode.StepOut).step_out_target_depth = 5 ∧
    (handle_step_out c4ctx).step_out_target_depth = 5 ∧
    c4ctx.call_stack.length - 1 = 1 ∧
    (5 : Nat) ≠ 1 := by
  refine ⟨rfl, rfl, rfl, by decide⟩

/-- C4 (amended): `set_mode` never modifies `step_out_target_depth` for any
mode; the reset to the current depth minus one (saturating at 0, via `Nat`
subtraction) happens only in `handle_step_command("stepOut")`; the DAP
`stepOut` handler calls `set_mode` and raises `continue_requested`, leaving
`step_out_target_depth` unchanged. -/
theorem c4_step_out_target_depth (ctx : DebugContext) (m : RunMode) :
    (set_mode ctx m).mode = m ∧
    (set_mode ctx m).step_out_target_depth = ctx.step_out_target_depth ∧
    (handle_step_out ctx).mode = RunMode.StepOut ∧
    (handle_step_out ctx).continue_requested = true ∧
    (handle_step_out ctx).step_out_target_depth = ctx.step_out_target_depth ∧
    (handle_step_command ctx "stepOut").mode = RunMode.StepOut ∧
    (handle_step_command ctx "stepOut").step_out_target_depth = ctx.call_stack.length - 1 := by
  refine ⟨rfl, rfl, rfl, rfl, rfl, ?_, ?_⟩ <;> rfl

/-! ## C3 — `last_exit_code` and the shell invocations that discard it -/

/-- Shell stub whose every command reports exit code 7. -/
def shell7 : Shell := fun _ => some ("x", 7)

/-- C3, counterexample: with exit code 0 in the context, a variable
expansion (as used inside IF-condition evaluation) runs the shell, the shell
reports exit code 7, yet `last_exit_code` stays 0 — so after this shell
invocation `last_exit_code` differs from the exit code of the most recent
shell invocation. -/
theorem c3_counterexample :
    (expand_variables shell7 DebugContext.new "abc").1.last_exit_code = 0 ∧
    shell7 ("echo abc") = some ("x", 7) ∧
    (0 : Int) ≠ 7 := by
  refine ⟨rfl, rfl, by decide⟩

/-- C3 (amended): `expand_variables` and the whole `EXIST` evaluation leave
the context — in particular `last_exit_code` — unchanged (they discard the
shell's exit code), while the engine's `EXIT /B` branch does set
`last_exit_code` to the parsed argument (0 when it does not parse). -/
theorem c3_exit_code_tracking (shell : Shell) (ctx : DebugContext) (text : String) :
    ((expand_variables shell ctx text).1 = ctx) ∧
    (∀ nt path, (evaluate_if_condition shell ctx (IfCondition.Exist nt path)).1 = ctx) ∧
    (∀ cwd line, (execExitB ctx cwd line).ctx.last_exit_code =
        ((parse_i32 (sTrim (sDrop line 7))).getD 0)) := by
  refine ⟨expand_variables_fst shell ctx text, ?_, ?_⟩
  · intro nt path
    have h1 := expand_variables_fst shell ctx path
    rcases h : expand_variables shell ctx path with ⟨ctx2, res⟩
    rw [h] at h1
    dsimp only at h1
    subst h1
    unfold evaluate_if_condition
    dsimp only
    rw [h]
    cases res with
    | error e => rfl
    | ok pe =>
        dsimp only
        rcases shell ("if exist \"" ++ pe ++ "\" (echo 1) else (echo 0)") with _ | ⟨out, code⟩ <;> rfl
  · intro cwd line
    unfold execExitB
    dsimp only
    rcases leave_context ctx.call_stack with _ | ⟨next_pc, stack⟩ <;> rfl

/-! ## C2 — `setBreakpoints` does not replace the context's table -/

/-- Shell stub that always fails (no property below runs it). -/
def shellNone : Shell := fun _ => none

/-- Context after a first `setBreakpoints` request installing a breakpoint
at physical line 1 (logical line 0). -/
def c2ctx1 : DebugContext :=
  (handle_set_breakpoints DebugContext.new [0, 1] [{ line := some 1, condition := none }]).1

/-- Context after a second `setBreakpoints` request for the same source
naming only physical line 2 (logical line 1). -/
def c2ctx2 : DebugContext :=
  (handle_set_breakpoints c2ctx1 [0, 1] [{ line := some 2, condition := none }]).1

/-- C2, evaluation at the failing input: after the second request, which
names only logical line 1, the context's table still contains the logical
line 0 breakpoint of the first request — `should_stop_at` still stops there
in `Continue` mode — contradicting the replacement the claim (and the DAP
`setBreakpoints` contract) requires.  The handler adds the requested
breakpoints but never removes stale ones (`Breakpoints::clear` exists in
the source but is dead code). -/
theorem c2_stale_breakpoint_survives :
    bpContains c2ctx1.breakpoints 0 = true ∧
    bpContains c2ctx2.breakpoints 0 = true ∧
    bpContains c2ctx2.breakpoints 1 = true ∧
    (should_stop_at shellNone c2ctx2 0).1 = true := by
  refine ⟨by decide, by decide, by decide, by decide⟩

/-! ## C10 — the `EXIT /B` branch of the engine -/

/-- C10: executing an `EXIT /B` line sets `last_exit_code` to the parsed
integer argument, or to 0 when the remaining text (possibly empty) does not
parse as an `i32`; then one frame is popped (execution resumes at its
return program counter) or, with an empty call stack, the run terminates.
The last conjunct ties the branch to the engine dispatch: any line whose
upper-casing starts with `EXIT /B` is handled by exactly this branch. -/
theorem c10_exit_b (shell : Shell) (inp : EngineInput) (ctx : DebugContext)
    (cwd line : String) (pc : Nat) :
    (parse_i32 (sTrim (sDrop line 7)) = none →
        (execExitB ctx cwd line).ctx.last_exit_code = 0) ∧
    (∀ n, parse_i32 (sTrim (sDrop line 7)) = some n →
        (execExitB ctx cwd line).ctx.last_exit_code = n) ∧
    (ctx.call_stack = [] → (execExitB ctx cwd line).outcome = ExecOutcome.breakRun) ∧
    (∀ fr, ctx.call_stack.getLast? = some fr →
        (execExitB ctx cwd line).outcome = ExecOutcome.nextPc fr.return_pc ∧
        (execExitB ctx cwd line).ctx.call_stack = ctx.call_stack.dropLast) ∧
    (sStarts (sUpper line) "EXIT /B" = true →
        execLine shell inp ctx cwd pc line = execExitB ctx cwd line) := by
  refine ⟨?_, ?_, ?_, ?_, ?_⟩
  · intro hp
    unfold execExitB
    dsimp only
    rw [hp]
    rcases leave_context ctx.call_stack with _ | ⟨next_pc, stack⟩ <;> rfl
  · intro n hp
    unfold execExitB
    dsimp only
    rw [hp]
    rcases leave_context ctx.call_stack with _ | ⟨next_pc, stack⟩ <;> rfl
  · intro hs
    unfold execExitB leave_context
    dsimp only
    rw [hs]
    rfl
  · intro fr hfr
    unfold execExitB leave_context
    dsimp only
    rw [hfr]
    exact ⟨rfl, rfl⟩
  · intro hpre
    obtain ⟨t, ht⟩ := sStarts_eq_append _ _ hpre
    unfold execLine
    dsimp only
    rw [show sStarts (sUpper line) "SETLOCAL" = false by simp [sStarts, ht, List.isPrefixOf],
        show sStarts (sUpper line) "ENDLOCAL" = false by simp [sStarts, ht, List.isPrefixOf],
        show sStarts (sUpper line) "CALL " = false by simp [sStarts, ht, List.isPrefixOf],
        hpre]
    rfl

/-- C10, witness: `EXIT /B 5` sets `last_exit_code` to 5; a bare `EXIT /B`
sets it to 0; with one frame returning to line 9, execution resumes at 9;
the engine dispatches `exit /b 5` to this branch. -/
theorem c10_witness :
    (parse_i32 (sTrim (sDrop "EXIT /B 5" 7)) = some 5 ∧
     (execExitB DebugContext.new "C:" "EXIT /B 5").ctx.last_exit_code = 5) ∧
    (parse_i32 (sTrim (sDrop "EXIT /B" 7)) = none ∧
     (execExitB DebugContext.new "C:" "EXIT /B").ctx.last_exit_code = 0) ∧
    (({ DebugContext.new with call_stack := [Frame.new 9 none] } :
        DebugContext).call_stack.getLast? = some (Frame.new 9 none) ∧
     (execExitB { DebugContext.new with call_stack := [Frame.new 9 none] } "C:"
        "EXIT /B 5").outcome = ExecOutcome.nextPc 9) ∧
    (sStarts (sUpper "exit /b 5") "EXIT /B" = true ∧
     execLine shellNone { logical := [], phys_to_logical := [], labels_phys := [] }
        DebugContext.new "C:" 0 "exit /b 5" =
       execExitB DebugContext.new "C:" "exit /b 5") := by
  refine ⟨⟨by decide, ?_⟩, ⟨by decide, ?_⟩, ⟨by decide, ?_⟩, ⟨by decide, ?_⟩⟩
  · exact (c10_exit_b shellNone { logical := [], phys_to_logical := [], labels_phys := [] }
      DebugContext.new "C:" "EXIT /B 5" 0).2.1 5 (by decide)
  · exact (c10_exit_b shellNone { logical := [], phys_to_logical := [], labels_phys := [] }
      DebugContext.new "C:" "EXIT /B" 0).1 (by decide)
  · exact ((c10_exit_b shellNone { logical := [], phys_to_logical := [], labels_phys := [] }
      { DebugContext.new with call_stack := [Frame.new 9 none] } "C:" "EXIT /B 5" 0).2.2.2.1
      (Frame.new 9 none) (by decide)).1
  · exact (c10_exit_b shellNone { logical := [], phys_to_logical := [], labels_phys := [] }
      DebugContext.new "C:" "exit /b 5" 0).2.2.2.2 (by decide)

/-! ## C8 — `POPD` on an empty directory stack -/

/-- C8: `handle_popd` on an empty directory stack fails with the
directory-stack-underflow error, sets `last_exit_code` to 1, and leaves the
stack empty; and the engine's `POPD` branch swallows the error and proceeds
to the next line (`pc + 1`) without terminating the run and without
emitting any event. -/
theorem c8_popd_underflow (shell : Shell) (inp : EngineInput) (ctx : DebugContext)
    (cwd line : String) (pc : Nat)
    (hstack : ctx.directory_stack = [])
    (hpopd : sStarts (sUpper line) "POPD" = true) :
    handle_popd shell ctx cwd = ({ ctx with last_exit_code := 1 }, cwd, Except.error ()) ∧
    (handle_popd shell ctx cwd).1.directory_stack = [] ∧
    (execLine shell inp ctx cwd pc line).outcome = ExecOutcome.nextPc (pc + 1) ∧
    (execLine shell inp ctx cwd pc line).events = [] ∧
    (execLine shell inp ctx cwd pc line).ctx = { ctx with last_exit_code := 1 } := by
  have hpop : handle_popd shell ctx cwd = ({ ctx with last_exit_code := 1 }, cwd, Except.error ()) := by
    unfold handle_popd
    rw [hstack]
    rfl
  obtain ⟨t, ht⟩ := sStarts_eq_append _ _ hpopd
  have hexec : execLine shell inp ctx cwd pc line =
      { ctx := { ctx with last_exit_code := 1 }, cwd := cwd,
        outcome := ExecOutcome.nextPc (pc + 1), outputs := [], events := [] } := by
    unfold execLine
    dsimp only
    rw [show sStarts (sUpper line) "SETLOCAL" = false by simp [sStarts, ht, List.isPrefixOf],
        show sStarts (sUpper line) "ENDLOCAL" = false by simp [sStarts, ht, List.isPrefixOf],
        show sStarts (sUpper line) "CALL " = false by simp [sStarts, ht, List.isPrefixOf],
        show sStarts (sUpper line) "EXIT /B" = false by simp [sStarts, ht, List.isPrefixOf],
        show sStarts (sUpper line) "GOTO " = false by simp [sStarts, ht, List.isPrefixOf],
        show sStarts (sUpper line) "PUSHD" = false by simp [sStarts, ht, List.isPrefixOf],
        hpopd]
    rw [if_neg (by simp), if_neg (by simp), if_neg (by simp), if_neg (by simp),
        if_neg (by simp), if_neg (by simp), if_pos rfl]
    rw [hpop]
  refine ⟨hpop, ?_, ?_, ?_, ?_⟩
  · rw [hpop]
    exact hstack
  · rw [hexec]
  · rw [hexec]
  · rw [hexec]

/-- C8, witness: a `popd` line on a fresh context (empty directory stack). -/
theorem c8_witness :
    (DebugContext.new).directory_stack = [] ∧
    sStarts (sUpper "popd") "POPD" = true ∧
    handle_popd shellNone DebugContext.new "C:" =
      ({ DebugContext.new with last_exit_code := 1 }, "C:", Except.error ()) ∧
    (execLine shellNone { logical := [], phys_to_logical := [], labels_phys := [] }
        DebugContext.new "C:" 4 "popd").outcome = ExecOutcome.nextPc 5 := by
  refine ⟨rfl, by decide, ?_, ?_⟩
  · exact (c8_popd_underflow shellNone
      { logical := [], phys_to_logical := [], labels_phys := [] }
      DebugContext.new "C:" "popd" 4 rfl (by decide)).1
  · exact (c8_popd_underflow shellNone
      { logical := [], phys_to_logical := [], labels_phys := [] }
      DebugContext.new "C:" "popd" 4 rfl (by decide)).2.2.1

/-! ## C1 — `should_stop_at` in `Continue` mode -/

/-- C1: in `Continue` mode, `should_stop_at(pc)` (i) returns `(false, ctx)`
unchanged when no breakpoint exists at `pc`; (ii) increments the hit counter
of the breakpoint at `pc` on every visit when one exists; and (iii) returns
`true` iff a breakpoint exists at `pc` and, whenever that breakpoint carries
a condition, evaluating it either fails (fail-safe stop) or yields a truthy
string — trimmed result non-empty, not `"0"`, and not `"false"` ignoring
ASCII case (`truthyStr`). -/
theorem c1_should_stop_continue (shell : Shell) (ctx : DebugContext) (pc : Nat)
    (h : ctx.mode = RunMode.Continue) :
    (bpContains ctx.breakpoints pc = false → should_stop_at shell ctx pc = (false, ctx)) ∧
    (bpContains ctx.breakpoints pc = true →
        (bpGet ((should_stop_at shell ctx pc).2).breakpoints pc).map Breakpoint.hit_count =
          (bpGet ctx.breakpoints pc).map (fun bp => bp.hit_count + 1)) ∧
    ((should_stop_at shell ctx pc).1 = true ↔
        (bpContains ctx.breakpoints pc = true ∧
         ∀ cond, (bpGet ctx.breakpoints pc).bind (fun bp => bp.condition) = some cond →
           ((∃ e, (evaluate_expression shell (bumpHit ctx pc) cond).2 = Except.error e) ∨
            (∃ result, (evaluate_expression shell (bumpHit ctx pc) cond).2 = Except.ok result ∧
               truthyStr result = true)))) := by
  have hunfold : should_stop_at shell ctx pc =
      (if !(bpContains ctx.breakpoints pc) then (false, ctx)
       else
         match (bpGet ctx.breakpoints pc).bind (fun bp => bp.condition) with
         | some condition =>
             match evaluate_expression shell (bumpHit ctx pc) condition with
             | (ctx2, Except.ok result) => (truthyStr result, ctx2)
             | (ctx2, Except.error _) => (true, ctx2)
         | none => (true, bumpHit ctx pc)) := by
    unfold should_stop_at
    rw [h]
  rw [hunfold]
  cases hc : bpContains ctx.breakpoints pc with
  | false => simp
  | true =>
      rw [if_neg (by simp)]
      rcases hcond : (bpGet ctx.breakpoints pc).bind (fun bp => bp.condition) with _ | c
      · refine ⟨fun hcf => absurd hcf (by decide), fun _ => ?_, ?_⟩
        · simp only [bumpHit, bpGet_bpModify_self, Option.map_map]
          rfl
        · simp
      · rcases hev : evaluate_expression shell (bumpHit ctx pc) c with ⟨ctx3, res⟩
        have hbps3 : ctx3.breakpoints = (bumpHit ctx pc).breakpoints := by
          have := evaluate_expression_breakpoints shell (bumpHit ctx pc) c
          rw [hev] at this
          exact this
        cases res with
        | ok r =>
            dsimp only
            rw [hev]
            refine ⟨fun hcf => absurd hcf (by decide), fun _ => ?_, ?_⟩
            · dsimp only
              rw [hbps3]
              simp only [bumpHit, bpGet_bpModify_self, Option.map_map]
              rfl
            · dsimp only
              constructor
              · intro htr
                refine ⟨rfl, fun cond hcc => ?_⟩
                cases hcc
                exact Or.inr ⟨r, by rw [hev], htr⟩
              · rintro ⟨-, hall⟩
                rcases hall c rfl with ⟨e, he⟩ | ⟨result, hr, htr⟩
                · rw [hev] at he
                  exact absurd he (by simp)
                · rw [hev] at hr
                  dsimp only at hr
                  cases hr
                  exact htr
        | error e =>
            dsimp only
            rw [hev]
            refine ⟨fun hcf => absurd hcf (by decide), fun _ => ?_, ?_⟩
            · dsimp only
              rw [hbps3]
              simp only [bumpHit, bpGet_bpModify_self, Option.map_map]
              rfl
            · dsimp only
              constructor
              · intro _
                refine ⟨rfl, fun cond hcc => ?_⟩
                cases hcc
                exact Or.inl ⟨e, by rw [hev]⟩
              · intro _
                rfl

/-- Context with an unconditional breakpoint at logical line 3. -/
def c1ctx : DebugContext := add_breakpoint DebugContext.new 3

/-- C1, witness: with an unconditional breakpoint at line 3, `Continue` mode
stops at line 3 and does not stop at line 7 (context unchanged there). -/
theorem c1_witness :
    (should_stop_at shellNone c1ctx 3).1 = true ∧
    should_stop_at shellNone c1ctx 7 = (false, c1ctx) := by
  constructor
  · exact (c1_should_stop_continue shellNone c1ctx 3 rfl).2.2.mpr
      ⟨by decide, by
        intro cond hcond
        rw [show (bpGet c1ctx.breakpoints 3).bind (fun bp => bp.condition) = none by decide]
          at hcond
        simp at hcond⟩
  · exact (c1_should_stop_continue shellNone c1ctx 7 rfl).1 (by decide)

/-! ## Association-map lemmas for the scope development -/

/-- Lookup through a cons cell. -/
lemma mapGet_cons (k1 v1 : String) (t : VarMap) (k : String) :
    mapGet ((k1, v1) :: t) k = if (k1 == k) then some v1 else mapGet t k := by
  by_cases h : k1 = k
  · subst h
    simp [mapGet, List.find?]
  · have hb : (k1 == k) = false := by simpa using h
    simp [mapGet, List.find?, hb]

/-- A key outside the key list looks up to `none`. -/
lemma mapGet_eq_none (m : VarMap) (k : String) (h : k ∉ m.map Prod.fst) :
    mapGet m k = none := by
  induction m with
  | nil => rfl
  | cons e t ih =>
      rcases e with ⟨k1, v1⟩
      simp only [List.map_cons, List.mem_cons, not_or] at h
      rw [mapGet_cons, if_neg (by simpa using fun he => h.1 he.symm)]
      exact ih h.2

/-- Erasing one key leaves the lookups of the other keys unchanged. -/
lemma mapGet_erase_other (m : VarMap) (k k2 : String) (h : k2 ≠ k) :
    mapGet (m.filter (fun kv => kv.1 != k)) k2 = mapGet m k2 := by
  induction m with
  | nil => rfl
  | cons e t ih =>
      rcases e with ⟨k1, v1⟩
      by_cases h1 : k1 = k
      · subst h1
        rw [List.filter_cons]
        simp only [bne_self_eq_false, Bool.false_eq_true, if_false]
        rw [ih, mapGet_cons, if_neg (by simpa using fun he => h (he.symm))]
      · rw [List.filter_cons]
        simp only [show (((k1, v1).1 != k)) = true by simpa using h1, if_true]
        rw [mapGet_cons, mapGet_cons, ih]

/-- Reading back the inserted key. -/
lemma mapGet_mapInsert_self (m : VarMap) (k v : String) :
    mapGet (mapInsert m k v) k = some v := by
  rw [mapInsert, mapGet_cons]
  simp

/-- Inserting one key leaves the lookups of the other keys unchanged. -/
lemma mapGet_mapInsert_other (m : VarMap) (k v k2 : String) (h : k2 ≠ k) :
    mapGet (mapInsert m k v) k2 = mapGet m k2 := by
  rw [mapInsert, mapGet_cons, if_neg (by simpa using fun he => h he.symm)]
  exact mapGet_erase_other m k k2 h

/-- Overlay lookup with duplicate-free overlay keys: the overlay is
consulted first, then the base — the scope rule of
`get_visible_variables`. -/
lemma mapGet_mapExtend (base other : VarMap) (k : String)
    (hnd : (other.map Prod.fst).Nodup) :
    mapGet (mapExtend base other) k =
      match mapGet other k with
      | some v => some v
      | none => mapGet base k := by
  induction other generalizing base with
  | nil => rfl
  | cons e t ih =>
      rcases e with ⟨k1, v1⟩
      simp only [List.map_cons, List.nodup_cons] at hnd
      obtain ⟨hk1, hnd⟩ := hnd
      have hstep : mapExtend base ((k1, v1) :: t) = mapExtend (mapInsert base k1 v1) t := rfl
      rw [hstep, ih (mapInsert base k1 v1) hnd, mapGet_cons]
      by_cases hk : k1 = k
      · subst hk
        rw [mapGet_eq_none t k1 hk1]
        simp [mapGet_mapInsert_self]
      · rw [if_neg (by simpa using hk)]
        cases hmt : mapGet t k with
        | some v => rfl
        | none => exact mapGet_mapInsert_other base k1 v1 k (fun he => hk he.symm)

/-- Modifying the top (last) frame of a non-empty stack. -/
lemma modifyTop_append (f : Frame → Frame) (fs : List Frame) (fr : Frame) :
    modifyTop f (fs ++ [fr]) = fs ++ [f fr] := by
  induction fs with
  | nil => rfl
  | cons a t ih =>
      cases t with
      | nil => rfl
      | cons b t2 =>
          simp only [List.cons_append, modifyTop] at ih ⊢
          exact congrArg (a :: ·) ih

/-! ## C5 — `SETLOCAL` / `ENDLOCAL` scoping -/

/-- C5: with at least one frame on the stack (top frame `fr`, locals empty),
after `handle_setlocal` a plain `SET` line tracked via `track_set_command`
(a) leaves the global map untouched (the write is invisible in globals),
(b) is stored in the top frame's locals and visible, (c) disappears from the
visible set after `handle_endlocal`, while (d) globals that existed before
the `SETLOCAL` stay visible throughout; and (e) visible-variable lookup
always consults the top frame's locals (when its scope is active) before
the global map. -/
theorem c5_setlocal_scoping (shell : Shell) (ctx0 : DebugContext)
    (fs : List Frame) (fr : Frame) (name value line : String)
    (hstack : ctx0.call_stack = fs ++ [fr])
    (hloc : fr.locals = [])
    (hparse : trackSetClassify line = SetForm.plain name value)
    (hglob : mapGet ctx0.vars name = none) :
    (track_set_command shell (handle_setlocal ctx0) line).vars = ctx0.vars ∧
    mapGet (track_set_command shell (handle_setlocal ctx0) line).vars name = none ∧
    (topFrame (track_set_command shell (handle_setlocal ctx0) line)).map Frame.locals =
      some [(name, value)] ∧
    mapGet (get_visible_variables (track_set_command shell (handle_setlocal ctx0) line)) name =
      some value ∧
    mapGet (get_visible_variables
      (handle_endlocal (track_set_command shell (handle_setlocal ctx0) line))) name = none ∧
    (∀ gk gv, mapGet ctx0.vars gk = some gv → gk ≠ name →
        mapGet (get_visible_variables (handle_setlocal ctx0)) gk = some gv ∧
        mapGet (get_visible_variables
          (track_set_command shell (handle_setlocal ctx0) line)) gk = some gv ∧
        mapGet (get_visible_variables
          (handle_endlocal (track_set_command shell (handle_setlocal ctx0) line))) gk = some gv) ∧
    (∀ (ctx : DebugContext) (f2 : Frame) (rest : List Frame) (k : String),
        ctx.call_stack = rest ++ [f2] → f2.has_setlocal = true →
        (f2.locals.map Prod.fst).Nodup →
        mapGet (get_visible_variables ctx) k =
          match mapGet f2.locals k with
          | some v => some v
          | none => mapGet ctx.vars k) := by
  have horder : ∀ (ctx : DebugContext) (f2 : Frame) (rest : List Frame) (k : String),
      ctx.call_stack = rest ++ [f2] → f2.has_setlocal = true →
      (f2.locals.map Prod.fst).Nodup →
      mapGet (get_visible_variables ctx) k =
        match mapGet f2.locals k with
        | some v => some v
        | none => mapGet ctx.vars k := by
    intro ctx f2 rest k hs hact hnd
    unfold get_visible_variables
    rw [hs, List.getLast?_concat]
    dsimp only
    rw [hact]
    simp only [if_true]
    exact mapGet_mapExtend ctx.vars f2.locals k hnd
  have h1 : handle_setlocal ctx0 =
      { ctx0 with call_stack := fs ++ [{ fr with has_setlocal := true }] } := by
    unfold handle_setlocal
    rw [hstack, List.getLast?_concat]
    dsimp only
    rw [modifyTop_append]
  have h2 : track_set_command shell (handle_setlocal ctx0) line =
      { ctx0 with call_stack :=
          fs ++ [{ fr with has_setlocal := true, locals := [(name, value)] }] } := by
    unfold track_set_command
    rw [hparse]
    unfold storeScoped
    rw [h1]
    dsimp only
    rw [List.getLast?_concat]
    dsimp only
    rw [modifyTop_append]
    rw [hloc]
    rfl
  have h3 : handle_endlocal (track_set_command shell (handle_setlocal ctx0) line) =
      { ctx0 with call_stack :=
          fs ++ [{ fr with has_setlocal := false, locals := [] }] } := by
    unfold handle_endlocal
    rw [h2]
    dsimp only
    rw [List.getLast?_concat]
    dsimp only
    rw [modifyTop_append]
    simp
  refine ⟨by rw [h2], by rw [h2]; exact hglob, ?_, ?_, ?_, ?_, horder⟩
  · rw [h2]
    unfold topFrame
    dsimp only
    rw [List.getLast?_concat]
    rfl
  · rw [horder (track_set_command shell (handle_setlocal ctx0) line)
        { fr with has_setlocal := true, locals := [(name, value)] } fs name
        (by rw [h2]) rfl (by simp)]
    rw [show mapGet [(name, value)] name = some value by rw [mapGet_cons]; simp]
  · rw [h3]
    unfold get_visible_variables
    dsimp only
    rw [List.getLast?_concat]
    dsimp only
    exact hglob
  · intro gk gv hgv hne
    refine ⟨?_, ?_, ?_⟩
    · rw [horder (handle_setlocal ctx0) { fr with has_setlocal := true } fs gk
          (by rw [h1]) rfl (by rw [hloc]; simp)]
      rw [hloc]
      rw [show mapGet ([] : VarMap) gk = none from rfl]
      rw [h1]
      exact hgv
    · rw [horder (track_set_command shell (handle_setlocal ctx0) line)
          { fr with has_setlocal := true, locals := [(name, value)] } fs gk
          (by rw [h2]) rfl (by simp)]
      rw [show mapGet [(name, value)] gk = none by
        rw [mapGet_cons, if_neg (by simpa using fun he => hne he.symm)]; rfl]
      rw [h2]
      exact hgv
    · rw [h3]
      unfold get_visible_variables
      dsimp only
      rw [List.getLast?_concat]
      dsimp only
      exact hgv

/-- Frame used by the C5 witness. -/
def c5fr : Frame := Frame.new 7 none

/-- Context used by the C5 witness: one pre-existing global `HOME`, one
frame. -/
def c5ctx : DebugContext :=
  { DebugContext.new with vars := [("HOME", "C:\\users")], call_stack := [c5fr] }

/-- C5, witness: the scope rule at `SET NAME=Alice` inside a `SETLOCAL`
scope over the concrete context `c5ctx`. -/
theorem c5_witness :
    trackSetClassify "SET NAME=Alice" = SetForm.plain "NAME" "Alice" ∧
    (track_set_command shellNone (handle_setlocal c5ctx) "SET NAME=Alice").vars = c5ctx.vars ∧
    mapGet (get_visible_variables
      (track_set_command shellNone (handle_setlocal c5ctx) "SET NAME=Alice")) "NAME" =
        some "Alice" ∧
    mapGet (get_visible_variables
      (handle_endlocal (track_set_command shellNone (handle_setlocal c5ctx) "SET NAME=Alice")))
      "NAME" = none := by
  have h := c5_setlocal_scoping shellNone c5ctx [] c5fr "NAME" "Alice" "SET NAME=Alice"
    rfl rfl (by decide) (by decide)
  exact ⟨by decide, h.1, h.2.2.2.1, h.2.2.2.2.1⟩

/-! ## C7 — numeric `FOR /L` expansion -/

lemma i32min_eq : i32min = -2147483648 := rfl

lemma i32max_eq : i32max = 2147483647 := rfl

lemma loopFuel_eq : loopFuel = 4294967296 := rfl

/-- `wrap32` is the identity on the `i32` range. -/
lemma wrap32_eq_self (x : Int) (h1 : i32min ≤ x) (h2 : x ≤ i32max) : wrap32 x = x := by
  have e1 := i32min_eq
  have e2 := i32max_eq
  unfold wrap32
  have h : (x + 2147483648) % 4294967296 = x + 2147483648 :=
    Int.emod_eq_of_lt (by omega) (by omega)
  omega

/-- `wrap32` always lands inside the `i32` range. -/
lemma wrap32_mem (x : Int) : i32min ≤ wrap32 x ∧ wrap32 x ≤ i32max := by
  have e1 := i32min_eq
  have e2 := i32max_eq
  unfold wrap32
  have h1 : 0 ≤ (x + 2147483648) % 4294967296 := Int.emod_nonneg _ (by norm_num)
  have h2 : (x + 2147483648) % 4294967296 < 4294967296 := Int.emod_lt_of_pos _ (by norm_num)
  omega

/-- With a positive step whose increment never overflows `i32`
(`end + step ≤ i32::MAX`), the positive-step loop exits via its guard
once the fuel covers the remaining distance: the completion flag is
`true`. -/
lemma posLoop_exits (v cmd : String) (step endv : Int) (h : 0 < step)
    (hov : endv + step ≤ i32max) :
    ∀ (fuel : Nat) (current : Int), i32min ≤ current →
      (endv + 1 - current).toNat ≤ fuel →
      (posLoop v cmd step endv fuel current).2 = true := by
  have e1 := i32min_eq
  have e2 := i32max_eq
  intro fuel
  induction fuel with
  | zero =>
      intro current hlo hfuel
      rw [posLoop, if_neg (by omega : ¬(current ≤ endv))]
  | succ f ih =>
      intro current hlo hfuel
      rw [posLoop]
      by_cases hle : current ≤ endv
      · rw [if_pos hle]
        dsimp only
        rw [wrap32_eq_self (current + step) (by omega) (by omega)]
        exact ih (current + step) (by omega) (by omega)
      · rw [if_neg hle]

/-- Symmetric exit lemma for the negative-step loop
(`i32::MIN ≤ end + step` rules the overflow out). -/
lemma negLoop_exits (v cmd : String) (step endv : Int) (h : step < 0)
    (hov : i32min ≤ endv + step) :
    ∀ (fuel : Nat) (current : Int), current ≤ i32max →
      (current + 1 - endv).toNat ≤ fuel →
      (negLoop v cmd step endv fuel current).2 = true := by
  have e1 := i32min_eq
  have e2 := i32max_eq
  intro fuel
  induction fuel with
  | zero =>
      intro current hhi hfuel
      rw [negLoop, if_neg (by omega : ¬(current ≥ endv))]
  | succ f ih =>
      intro current hhi hfuel
      rw [negLoop]
      by_cases hge : current ≥ endv
      · rw [if_pos hge]
        dsimp only
        rw [wrap32_eq_self (current + step) (by omega) (by omega)]
        exact ih (current + step) (by omega) (by omega)
      · rw [if_neg hge]

/-- Indexed characterisation of the positive-step loop under no-overflow:
position `i` is filled exactly while `current + step·i` has not passed
`end`, with the value `current + step·i` and the body with the loop
variable substituted. -/
lemma posLoop_get (v cmd : String) (step endv : Int) (h : 0 < step)
    (hov : endv + step ≤ i32max) :
    ∀ (i fuel : Nat) (current : Int), i32min ≤ current →
      (endv + 1 - current).toNat ≤ fuel →
      (posLoop v cmd step endv fuel current).1.get? i =
        if current + step * (i : Int) ≤ endv then
          some (sReplace cmd v (toString (current + step * (i : Int))), v,
                toString (current + step * (i : Int)))
        else none := by
  have e1 := i32min_eq
  have e2 := i32max_eq
  intro i
  induction i with
  | zero =>
      intro fuel current hlo hfuel
      by_cases hle : current ≤ endv
      · cases fuel with
        | zero => exact absurd hfuel (by omega)
        | succ f =>
            rw [posLoop, if_pos hle]
            dsimp only
            simp [hle]
      · cases fuel with
        | zero =>
            rw [posLoop, if_neg hle]
            simp [hle]
        | succ f =>
            rw [posLoop, if_neg hle]
            simp [hle]
  | succ n ih =>
      intro fuel current hlo hfuel
      have hcast : ((n + 1 : Nat) : Int) = (n : Int) + 1 := by push_cast; ring
      by_cases hle : current ≤ endv
      · cases fuel with
        | zero => exact absurd hfuel (by omega)
        | succ f =>
            rw [posLoop, if_pos hle]
            dsimp only
            show (posLoop v cmd step endv f (wrap32 (current + step))).1.get? n = _
            rw [wrap32_eq_self (current + step) (by omega) (by omega)]
            rw [ih f (current + step) (by omega) (by omega), hcast]
            have harith : current + step + step * (n : Int) =
                current + step * ((n : Int) + 1) := by ring
            rw [harith]
      · rw [hcast]
        have hn : (0 : Int) ≤ (n : Int) := Int.natCast_nonneg n
        have hgt : endv < current := lt_of_not_le hle
        have hcond : ¬(current + step * ((n : Int) + 1) ≤ endv) := by nlinarith
        cases fuel with
        | zero =>
            rw [posLoop, if_neg hle, if_neg hcond]
            rfl
        | succ f =>
            rw [posLoop, if_neg hle, if_neg hcond]
            rfl

/-- Indexed characterisation of the negative-step loop under no-overflow. -/
lemma negLoop_get (v cmd : String) (step endv : Int) (h : step < 0)
    (hov : i32min ≤ endv + step) :
    ∀ (i fuel : Nat) (current : Int), current ≤ i32max →
      (current + 1 - endv).toNat ≤ fuel →
      (negLoop v cmd step endv fuel current).1.get? i =
        if current + step * (i : Int) ≥ endv then
          some (sReplace cmd v (toString (current + step * (i : Int))), v,
                toString (current + step * (i : Int)))
        else none := by
  have e1 := i32min_eq
  have e2 := i32max_eq
  intro i
  induction i with
  | zero =>
      intro fuel current hhi hfuel
      by_cases hge : current ≥ endv
      · cases fuel with
        | zero => exact absurd hfuel (by omega)
        | succ f =>
            rw [negLoop, if_pos hge]
            dsimp only
            simp [hge]
      · cases fuel with
        | zero =>
            rw [negLoop, if_neg hge]
            simp [hge]
        | succ f =>
            rw [negLoop, if_neg hge]
            simp [hge]
  | succ n ih =>
      intro fuel current hhi hfuel
      have hcast : ((n + 1 : Nat) : Int) = (n : Int) + 1 := by push_cast; ring
      by_cases hge : current ≥ endv
      · cases fuel with
        | zero => exact absurd hfuel (by omega)
        | succ f =>
            rw [negLoop, if_pos hge]
            dsimp only
            show (negLoop v cmd step endv f (wrap32 (current + step))).1.get? n = _
            rw [wrap32_eq_self (current + step) (by omega) (by omega)]
            rw [ih f (current + step) (by omega) (by omega), hcast]
            have harith : current + step + step * (n : Int) =
                current + step * ((n : Int) + 1) := by ring
            rw [harith]
      · rw [hcast]
        have hn : (0 : Int) ≤ (n : Int) := Int.natCast_nonneg n
        have hlt : current < endv := lt_of_not_le hge
        have hcond : ¬(current + step * ((n : Int) + 1) ≥ endv) := by nlinarith
        cases fuel with
        | zero =>
            rw [negLoop, if_neg hge, if_neg hcond]
            rfl
        | succ f =>
            rw [negLoop, if_neg hge, if_neg hcond]
            rfl

/-- At `end = i32::MAX` the wrapped guard `current <= end` holds for every
in-range counter value, so the source's positive-step loop never exits:
the completion flag stays `false` for every fuel. -/
lemma posLoop_no_halt (v cmd : String) (step : Int) :
    ∀ (fuel : Nat) (current : Int), i32min ≤ current → current ≤ i32max →
      (posLoop v cmd step i32max fuel current).2 = false := by
  intro fuel
  induction fuel with
  | zero =>
      intro current hlo hhi
      rw [posLoop, if_pos hhi]
  | succ f ih =>
      intro current hlo hhi
      rw [posLoop, if_pos hhi]
      dsimp only
      obtain ⟨hb1, hb2⟩ := wrap32_mem (current + step)
      exact ih (wrap32 (current + step)) hb1 hb2

/-- At `end = i32::MIN` the wrapped guard `current >= end` holds for every
in-range counter value, so the source's negative-step loop never exits. -/
lemma negLoop_no_halt (v cmd : String) (step : Int) :
    ∀ (fuel : Nat) (current : Int), i32min ≤ current → current ≤ i32max →
      (negLoop v cmd step i32min fuel current).2 = false := by
  intro fuel
  induction fuel with
  | zero =>
      intro current hlo hhi
      rw [negLoop, if_pos hlo]
  | succ f ih =>
      intro current hlo hhi
      rw [negLoop, if_pos hlo]
      dsimp only
      obtain ⟨hb1, hb2⟩ := wrap32_mem (current + step)
      exact ih (wrap32 (current + step)) hb1 hb2

/-- C7, counterexample: at the parser-reachable triple
`(2147483646, 1, 2147483647)` — `end = i32::MAX` — the source's `i32`
increment overflows.  The loop emits `2147483646`, `2147483647` and then
the wrapped value `-2147483648` instead of `start + 2·step = 2147483648`,
and its guard has not failed after those three iterations (completion
flag `false`; by `posLoop_no_halt` it can never fail), refuting
"enumerates start, start+step, start+2·step, … halting when the current
value exceeds end". -/
theorem c7_counterexample :
    parse_for_statement "FOR /L %%n IN (2147483646,1,2147483647) DO echo %%n" =
      some { loop_type := ForLoopType.Numeric "%%n" 2147483646 1 2147483647 "echo %%n" } ∧
    (posLoop "%%n" "echo %%n" 1 2147483647 3 2147483646).1.map (fun t => t.2.2) =
      ["2147483646", "2147483647", "-2147483648"] ∧
    (posLoop "%%n" "echo %%n" 1 2147483647 3 2147483646).2 = false ∧
    toString ((2147483646 : Int) + 1 * 2) = "2147483648" ∧
    ("-2147483648" : String) ≠ "2147483648" := by
  decide

/-- C7 (amended): with the loop counter computed in `i32` as the source
does, a zero step yields the empty expansion, and for a non-zero step
whose arithmetic stays inside `i32` (`start` in range and `end + step` in
range) the expansion enumerates `start, start+step, start+2·step, …` in
order and the loop exits once the value passes `end`: position `i` is
filled iff `start + step·i` has not passed `end`.  When `end` lies within
`step` of the `i32` boundary the increment overflows instead of halting
cleanly; at `end = i32::MAX` (positive step), resp. `i32::MIN` (negative),
the wrapped guard can never fail, so the loop never exits.  The concrete
example `FOR /L %%n IN (1,1,3) DO echo %%n` parses to the triple (1,1,3)
and expands to exactly the three iterations `"1"`, `"2"`, `"3"` in order,
with bodies `echo 1`, `echo 2`, `echo 3`. -/
theorem c7_for_l_expansion (shell : Shell) (ctx : DebugContext)
    (v cmd : String) (start step endv : Int) :
    (expand_for_loop shell ctx (ForLoopType.Numeric v start 0 endv cmd) =
        (ctx, Except.ok [])) ∧
    (0 < step → i32min ≤ start → endv + step ≤ i32max → ∃ its,
        expand_for_loop shell ctx (ForLoopType.Numeric v start step endv cmd) =
          (ctx, Except.ok its) ∧
        (posLoop v cmd step endv loopFuel start).2 = true ∧
        ∀ i : Nat, its.get? i =
          if start + step * (i : Int) ≤ endv then
            some (sReplace cmd v (toString (start + step * (i : Int))), v,
                  toString (start + step * (i : Int)))
          else none) ∧
    (step < 0 → start ≤ i32max → i32min ≤ endv + step → ∃ its,
        expand_for_loop shell ctx (ForLoopType.Numeric v start step endv cmd) =
          (ctx, Except.ok its) ∧
        (negLoop v cmd step endv loopFuel start).2 = true ∧
        ∀ i : Nat, its.get? i =
          if start + step * (i : Int) ≥ endv then
            some (sReplace cmd v (toString (start + step * (i : Int))), v,
                  toString (start + step * (i : Int)))
          else none) ∧
    (∀ (fuel : Nat) (current : Int), i32min ≤ current → current ≤ i32max →
        (posLoop v cmd step i32max fuel current).2 = false) ∧
    (∀ (fuel : Nat) (current : Int), i32min ≤ current → current ≤ i32max →
        (negLoop v cmd step i32min fuel current).2 = false) ∧
    (parse_for_statement "FOR /L %%n IN (1,1,3) DO echo %%n" =
        some { loop_type := ForLoopType.Numeric "%%n" 1 1 3 "echo %%n" }) ∧
    (∃ its,
        expand_for_loop shell ctx (ForLoopType.Numeric "%%n" 1 1 3 "echo %%n") =
          (ctx, Except.ok its) ∧
        its.map (fun t => t.2.2) = ["1", "2", "3"] ∧
        its.map (fun t => t.1) = ["echo 1", "echo 2", "echo 3"] ∧
        its.map (fun t => t.2.1) = ["%%n", "%%n", "%%n"]) := by
  have e1 := i32min_eq
  have e2 := i32max_eq
  have e3 := loopFuel_eq
  refine ⟨?_, ?_, ?_, posLoop_no_halt v cmd step, negLoop_no_halt v cmd step, by decide, ?_⟩
  · unfold expand_for_loop
    norm_num
  · intro h hstart hov
    refine ⟨(posLoop v cmd step endv loopFuel start).1, ?_, ?_, ?_⟩
    · unfold expand_for_loop
      dsimp only
      rw [if_pos h]
    · exact posLoop_exits v cmd step endv h hov loopFuel start hstart (by omega)
    · intro i
      exact posLoop_get v cmd step endv h hov i loopFuel start hstart (by omega)
  · intro h hstart hov
    have hns : ¬(0 < step) := by omega
    refine ⟨(negLoop v cmd step endv loopFuel start).1, ?_, ?_, ?_⟩
    · unfold expand_for_loop
      dsimp only
      rw [if_neg hns, if_pos h]
    · exact negLoop_exits v cmd step endv h hov loopFuel start hstart (by omega)
    · intro i
      exact negLoop_get v cmd step endv h hov i loopFuel start hstart (by omega)
  · have hval : (posLoop "%%n" "echo %%n" 1 3 loopFuel 1).1 =
        [("echo 1", "%%n", "1"), ("echo 2", "%%n", "2"), ("echo 3", "%%n", "3")] := by
      decide
    refine ⟨(posLoop "%%n" "echo %%n" 1 3 loopFuel 1).1, ?_, ?_, ?_, ?_⟩
    · unfold expand_for_loop
      dsimp only
      rw [if_pos (by norm_num : (0 : Int) < 1)]
    · rw [hval]
      decide
    · rw [hval]
      decide
    · rw [hval]
      decide

/-- C7, witness: the no-overflow characterisation applied at (1,1,3):
the hypotheses hold, the loop exits cleanly, index 1 holds value "2" and
index 3 is past the end. -/
theorem c7_witness :
    ((0 : Int) < 1 ∧ i32min ≤ (1 : Int) ∧ (3 : Int) + 1 ≤ i32max) ∧
    ∃ its,
      expand_for_loop shellNone DebugContext.new
          (ForLoopType.Numeric "%%n" 1 1 3 "echo %%n") = (DebugContext.new, Except.ok its) ∧
      (posLoop "%%n" "echo %%n" 1 3 loopFuel 1).2 = true ∧
      (its.get? 1 = some ("echo 2", "%%n", "2") ∧ its.get? 3 = none) := by
  obtain ⟨its, heq, hexit, hget⟩ :=
    (c7_for_l_expansion shellNone DebugContext.new "%%n" "echo %%n" 1 1 3).2.1
      (by norm_num) (by decide) (by decide)
  refine ⟨⟨by norm_num, by decide, by decide⟩, its, heq, hexit, ?_, ?_⟩
  · rw [hget 1]
    norm_num
    decide
  · rw [hget 3]
    norm_num

/-! ## C9 — composite command splitting -/

/-- Invariant of the composite-split scan: if every already-emitted part
carries an operator, then in the final result only the last part can lack
one (parts are emitted with an operator exactly at split sites; only the
trailing remainder is emitted without one). -/
lemma splitCCAux_dropLast_isSome :
    ∀ (fuel : Nat) (cs : List Char) (escaped inq : Bool) (cur : List Char)
      (acc : List CommandPart),
      (∀ p ∈ acc, p.op.isSome = true) →
      ∀ p ∈ (splitCCAux fuel cs escaped inq cur acc).dropLast, p.op.isSome = true := by
  intro fuel
  induction fuel with
  | zero =>
      intro cs escaped inq cur acc hacc p hp
      cases cs with
      | nil =>
          rw [splitCCAux] at hp
          split at hp
          · rw [List.dropLast_concat] at hp
            exact hacc p hp
          · exact hacc p (List.dropLast_prefix acc |>.subset hp)
      | cons c cs2 =>
          rw [splitCCAux] at hp
          split at hp
          · rw [List.dropLast_concat] at hp
            exact hacc p hp
          · exact hacc p (List.dropLast_prefix acc |>.subset hp)
  | succ f ih =>
      intro cs escaped inq cur acc hacc p hp
      cases cs with
      | nil =>
          rw [splitCCAux] at hp
          split at hp
          · rw [List.dropLast_concat] at hp
            exact hacc p hp
          · exact hacc p (List.dropLast_prefix acc |>.subset hp)
      | cons c cs2 =>
          rw [splitCCAux] at hp
          have hsome : ∀ (op : CommandOp) (txt : String),
              ∀ q ∈ acc ++ [{ text := txt, op := some op }], q.op.isSome = true := by
            intro op txt q hq
            rcases List.mem_append.mp hq with hq | hq
            · exact hacc q hq
            · rcases List.mem_singleton.mp hq with rfl
              rfl
          split at hp
          · exact ih cs2 false inq (cur ++ [c]) acc hacc p hp
          · split at hp
            · exact ih cs2 true inq (cur ++ [c]) acc hacc p hp
            · split at hp
              · exact ih cs2 false (!inq) (cur ++ [c]) acc hacc p hp
              · split at hp
                · split at hp
                  · exact ih cs2.tail false inq [] _ (hsome CommandOp.And _) p hp
                  · exact ih cs2 false inq [] _ (hsome CommandOp.Unconditional _) p hp
                · split at hp
                  · split at hp
                    · exact ih cs2.tail false inq [] _ (hsome CommandOp.Or _) p hp
                    · exact ih cs2 false inq (cur ++ [c]) acc hacc p hp
                  · exact ih cs2 false inq (cur ++ [c]) acc hacc p hp

/-- C9, counterexample: on a line ending in an unquoted `&` the (single,
hence last) emitted part carries the `&` operator — the blank trailing
remainder is dropped — refuting "no operator on the last part". -/
theorem c9_counterexample :
    split_composite_command "echo A &" =
      [{ text := "echo A", op := some CommandOp.Unconditional }] ∧
    ({ text := "echo A", op := some CommandOp.Unconditional } : CommandPart).op ≠ none := by
  refine ⟨by decide, by decide⟩

/-- C9 (amended): the split acts only on unquoted, unescaped `&`, `&&` and
`||`, emitting the parts in order with the operator that followed each
part; every part except the last carries an operator, and the last part
carries none unless the line ends in a split operator (the blank trailing
remainder is dropped, leaving that operator on the final emitted part).  In
particular `echo "a & b"` is one part, a single unquoted `|` does not
split, and `^`-escaped operators do not split. -/
theorem c9_composite_split :
    (∀ (line : String) (p : CommandPart),
        p ∈ (split_composite_command line).dropLast → p.op.isSome = true) ∧
    split_composite_command "echo \"a & b\"" =
      [{ text := "echo \"a & b\"", op := none }] ∧
    split_composite_command "echo a | b" = [{ text := "echo a | b", op := none }] ∧
    split_composite_command "a ^& b" = [{ text := "a ^& b", op := none }] ∧
    (split_composite_command "echo A & echo B && echo C || echo D").map
        (fun p => (p.text, p.op)) =
      [("echo A", some CommandOp.Unconditional), ("echo B", some CommandOp.And),
       ("echo C", some CommandOp.Or), ("echo D", none)] := by
  refine ⟨?_, by decide, by decide, by decide, by decide⟩
  intro line p hp
  exact splitCCAux_dropLast_isSome line.data.length line.data false false [] []
    (fun q hq => absurd hq (List.not_mem_nil q)) p hp

/-- C9, witness: the dropLast property applied at a two-part split. -/
theorem c9_witness :
    ({ text := "echo A", op := some CommandOp.Unconditional } : CommandPart) ∈
      (split_composite_command "echo A & echo B").dropLast ∧
    ({ text := "echo A", op := some CommandOp.Unconditional } : CommandPart).op.isSome = true := by
  refine ⟨by decide, ?_⟩
  exact c9_composite_split.1 "echo A & echo B"
    { text := "echo A", op := some CommandOp.Unconditional } (by decide)

/-! ## C6 — stop-event reason strings -/

/-- The scope-line branch emits no stop events. -/
lemma execScopeLine_events (shell : Shell) (ctx : DebugContext) (cwd : String) (pc : Nat)
    (line : String) (handler : DebugContext → DebugContext) :
    (execScopeLine shell ctx cwd pc line handler).events = [] := by
  unfold execScopeLine
  rcases shell line with _ | ⟨out, code⟩ <;> rfl

/-- The `CALL` branch emits no stop events. -/
lemma execCall_events (inp : EngineInput) (ctx : DebugContext) (cwd : String) (pc : Nat)
    (line : String) : (execCall inp ctx cwd pc line).events = [] := by
  unfold execCall
  dsimp only
  repeat' split
  all_goals rfl

/-- The `EXIT /B` branch emits no stop events. -/
lemma execExitB_events (ctx : DebugContext) (cwd line : String) :
    (execExitB ctx cwd line).events = [] := by
  unfold execExitB
  dsimp only
  repeat' split
  all_goals rfl

/-- The `GOTO` branch emits no stop events. -/
lemma execGoto_events (inp : EngineInput) (ctx : DebugContext) (cwd line : String) :
    (execGoto inp ctx cwd line).events = [] := by
  unfold execGoto
  dsimp only
  repeat' split
  all_goals rfl

/-- The plain-command tail emits either no stop event or the single
data-breakpoint event with the literal reason `"stopped"`. -/
lemma execPlain_events (shell : Shell) (ctx : DebugContext) (cwd : String) (pc : Nat)
    (line : String) :
    (execPlain shell ctx cwd pc line).events = [] ∨
    (execPlain shell ctx cwd pc line).events = [("stopped", pc)] := by
  unfold execPlain
  dsimp only
  repeat' split
  all_goals first | (exact Or.inl rfl) | (exact Or.inr rfl)

/-- Executing one line emits either no stop event or the single
data-breakpoint event `("stopped", pc)`. -/
lemma execLine_events (shell : Shell) (inp : EngineInput) (ctx : DebugContext)
    (cwd : String) (pc : Nat) (line : String) :
    (execLine shell inp ctx cwd pc line).events = [] ∨
    (execLine shell inp ctx cwd pc line).events = [("stopped", pc)] := by
  unfold execLine
  dsimp only
  by_cases h1 : sStarts (sUpper line) "SETLOCAL" = true
  · rw [if_pos h1]
    exact Or.inl (execScopeLine_events _ _ _ _ _ _)
  · rw [if_neg h1]
    by_cases h2 : sStarts (sUpper line) "ENDLOCAL" = true
    · rw [if_pos h2]
      exact Or.inl (execScopeLine_events _ _ _ _ _ _)
    · rw [if_neg h2]
      by_cases h3 : sStarts (sUpper line) "CALL " = true
      · rw [if_pos h3]
        exact Or.inl (execCall_events _ _ _ _ _)
      · rw [if_neg h3]
        by_cases h4 : sStarts (sUpper line) "EXIT /B" = true
        · rw [if_pos h4]
          exact Or.inl (execExitB_events _ _ _)
        · rw [if_neg h4]
          by_cases h5 : sStarts (sUpper line) "GOTO " = true
          · rw [if_pos h5]
            exact Or.inl (execGoto_events _ _ _ _)
          · rw [if_neg h5]
            by_cases h6 : sStarts (sUpper line) "PUSHD" = true
            · rw [if_pos h6]
              exact Or.inl rfl
            · rw [if_neg h6]
              by_cases h7 : sStarts (sUpper line) "POPD" = true
              · rw [if_pos h7]
                exact Or.inl rfl
              · rw [if_neg h7]
                by_cases h8 : sStarts (sUpper line) "SHIFT" = true
                · rw [if_pos h8]
                  exact Or.inl rfl
                · rw [if_neg h8]
                  by_cases h9 : sStarts (sUpper line) "FOR " = true
                  · rw [if_pos h9]
                    rcases hps : parse_for_statement line with _ | st
                    · exact execPlain_events _ _ _ _ _
                    · dsimp only
                      rcases hexp : expand_for_loop shell ctx st.loop_type with ⟨ctx2, res⟩
                      cases res with
                      | ok iters => exact Or.inl rfl
                      | error e =>
                          dsimp only
                          exact execPlain_events _ _ _ _ _
                  · rw [if_neg h9]
                    by_cases h10 : sStarts (sUpper line) "IF " = true
                    · rw [if_pos h10]
                      rcases hpi : parse_if_statement line with _ | ist
                      · exact execPlain_events _ _ _ _ _
                      · dsimp only
                        rcases hev : evaluate_if_condition shell ctx ist.condition with ⟨ctx2, res⟩
                        cases res with
                        | ok b =>
                            dsimp only
                            exact execPlain_events _ _ _ _ _
                        | error e => exact execPlain_events _ _ _ _ _
                    · rw [if_neg h10]
                      exact execPlain_events _ _ _ _ _

/-- Every run mode's stop-site reason is `"breakpoint"` or `"step"`. -/
lemma stopReasonOf_mem (m : RunMode) :
    stopReasonOf m = "breakpoint" ∨ stopReasonOf m = "step" := by
  cases m
  · exact Or.inl rfl
  · exact Or.inr rfl
  · exact Or.inr rfl
  · exact Or.inr rfl

/-- Shell stub for the C6 scenario: every command succeeds silently. -/
def shellC6 : Shell := fun _ => some ("", 0)

/-- Context for the C6 scenario: variable `V` is `old`, with a data
breakpoint watching `V` at baseline `old`; `Continue` mode, no line
breakpoints. -/
def ctxC6 : DebugContext :=
  { DebugContext.new with vars := [("V", "old")], data_breakpoints := [("V", "old")] }

/-- One-line script for the C6 scenario: `set V=new` fires the data
breakpoint. -/
def inpC6 : EngineInput :=
  { logical := [{ text := "set V=new", phys_start := 0 }], phys_to_logical := [0],
    labels_phys := [] }

/-- Engine state at the start of the C6 scenario. -/
def stC6 : EngineState := { ctx := ctxC6, cwd := "C:\\", pc := 0, step_depth := none }

/-- C6, counterexample: when the data breakpoint fires, the engine sends
the stop event with the literal reason string `"stopped"`, which is not in
the claimed reason set and in particular is not `"data breakpoint"`. -/
theorem c6_counterexample :
    (engineStep shellC6 inpC6 none stC6).events = [("stopped", 0)] ∧
    ¬("stopped" ∈ ["entry", "step", "breakpoint", "pause", "data breakpoint"]) ∧
    "stopped" ≠ "data breakpoint" := by
  refine ⟨by decide, by decide, by decide⟩

/-- C6 (amended): every stop event one engine iteration sends carries a
reason in `{"breakpoint", "step", "stopped"}`: the stop site sends
`"breakpoint"` in `Continue` mode and `"step"` in every step mode, and the
data-breakpoint stop sends the literal `"stopped"` (not
`"data breakpoint"`); `"entry"` and `"pause"` reasons originate in the DAP
session, not the engine. -/
theorem c6_stop_event_reasons :
    (∀ (shell : Shell) (inp : EngineInput) (resume : Option RunMode) (st : EngineState)
        (r : String) (n : Nat),
        (r, n) ∈ (engineStep shell inp resume st).events →
        r = "breakpoint" ∨ r = "step" ∨ r = "stopped") ∧
    stopReasonOf RunMode.Continue = "breakpoint" ∧
    stopReasonOf RunMode.StepInto = "step" ∧
    stopReasonOf RunMode.StepOver = "step" ∧
    stopReasonOf RunMode.StepOut = "step" ∧
    (engineStep shellC6 inpC6 none stC6).events = [("stopped", 0)] := by
  refine ⟨?_, rfl, rfl, rfl, rfl, by decide⟩
  intro shell inp resume st r n hmem
  unfold engineStep at hmem
  dsimp only at hmem
  split at hmem
  · simp at hmem
  · split at hmem
    · simp at hmem
    · split at hmem
      · simp at hmem
      · split at hmem
        · simp at hmem
        · split at hmem
          · -- resume missing (watchdog): only the stop event was sent
            rename_i heq
            dsimp only at hmem
            rcases hsp : (computeShouldStop shell _ st.step_depth _).1 with _ | _
            · rw [hsp] at hmem
              simp at hmem
            · rw [hsp] at hmem
              simp only [if_true] at hmem
              have hpair := List.mem_singleton.mp hmem
              injection hpair with hr hn2
              subst hr
              rcases stopReasonOf_mem _ with h | h
              · exact Or.inl h
              · exact Or.inr (Or.inl h)
          · -- resume present: stop events followed by the line's events
            dsimp only at hmem
            rcases List.mem_append.mp hmem with hin | hin
            · rcases hsp : (computeShouldStop shell _ st.step_depth _).1 with _ | _
              · rw [hsp] at hin
                simp at hin
              · rw [hsp] at hin
                simp only [if_true] at hin
                have hpair := List.mem_singleton.mp hin
                injection hpair with hr hn2
                subst hr
                rcases stopReasonOf_mem _ with h | h
                · exact Or.inl h
                · exact Or.inr (Or.inl h)
            · rcases execLine_events shell inp _ _ _ _ with he | he
              · rw [he] at hin
                simp at hin
              · rw [he] at hin
                have hpair := List.mem_singleton.mp hin
                injection hpair with hr hn2
                subst hr
                exact Or.inr (Or.inr rfl)

/-- C6, witness: the reason-set property applied to the concrete
data-breakpoint stop. -/
theorem c6_witness :
    ("stopped", 0) ∈ (engineStep shellC6 inpC6 none stC6).events ∧
    ("stopped" = "breakpoint" ∨ "stopped" = "step" ∨ "stopped" = "stopped") := by
  refine ⟨by decide, ?_⟩
  exact c6_stop_event_reasons.1 shellC6 inpC6 none stC6 "stopped" 0 (by decide)

end BatchDbg
